import Mathlib

/-!
# Verification of the Orbit event-merging and Vulkan GPU-submission tracking core

This file gives a shallow embedding, in Lean 4, of the two core subsystems of the
repository:

* `PerfEventQueue` / `PerfEventProcessor` (OrbitLinuxTracing/PerfEventProcessor.h):
  a k-way timestamp-ordered merger over per-source FIFOs, realised in C++ as a
  `std::priority_queue` of `(fd, queue)` pairs with the comparator
  `QueueFrontTimestampReverseCompare`, plus the delayed dispatch loop.
* `CommandBufferManager` (OrbitVulkanLayer/CommandBufferManager.cpp): per
  command-buffer begin/end slot recording, debug-marker tracking, per-queue
  submission bookkeeping and completion.

Machine integers: all C++ integer quantities involved (timestamps, slot indices,
counters) are used far below their overflow bounds in the modelled operations, so
they are embedded as `Nat` (file descriptors as `Int`).  Fallible code paths
(`CHECK(...)` fatal assertions, and undefined behaviour such as `std::stack::top`
on an empty stack or `.back()` on an empty vector) are embedded as `Option`, with
`none` meaning the process aborts / behaviour is undefined.
-/

set_option maxHeartbeats 1000000

namespace Spec2Proof

/-! ## Array binary heap, modelling `std::priority_queue`

`std::priority_queue` (an external library component; the repository only
instantiates it) keeps its elements in a `std::vector` arranged as a binary
max-heap with respect to its comparator, with `top()` the element at index 0.
The comparator used by the source,
`QueueFrontTimestampReverseCompare(lhs, rhs) = lhs.ts > rhs.ts`, makes it a
min-heap on the key `ts`; we therefore embed the heap generically over a key
function `key : α → Nat`, sifting with the source's strict comparison:
an element moves up only while its key is strictly smaller than its parent's
(`comp(parent, value)` true), exactly as in `std::push_heap`; `std::pop_heap`
followed by `pop_back` is embedded by moving the last element to the root and
sifting it down along strictly smaller children. -/

/-- Element of a list at an index (out of range gives `default`), the
counterpart of `vector::operator[]` in the in-range uses below. -/
def nth {α : Type} [Inhabited α] (l : List α) (i : Nat) : α := l.getD i default

/-- Exchange the elements at indices `i` and `j`. -/
def lswap {α : Type} [Inhabited α] (l : List α) (i j : Nat) : List α :=
  (l.set i (nth l j)).set j (nth l i)

/-- Sift the element at the given index up towards the root while its key is
strictly smaller than its parent's key (the comparator of the source is the
strict `>` on front timestamps, so equal keys never move). -/
def siftUp {α : Type} [Inhabited α] (key : α → Nat) : List α → Nat → List α
  | l, 0 => l
  | l, i + 1 =>
    if key (nth l (i + 1)) < key (nth l (i / 2)) then
      siftUp key (lswap l (i / 2) (i + 1)) (i / 2)
    else l
termination_by l i => i
decreasing_by omega

/-- Sift the element at index `i` down, swapping with its strictly smaller
child (the smaller of the two when both exist), as in `std::pop_heap`. -/
def siftDown {α : Type} [Inhabited α] (key : α → Nat) : List α → Nat → List α
  | l, i =>
    if h1 : 2 * i + 1 < l.length then
      if h2 : 2 * i + 2 < l.length ∧ key (nth l (2 * i + 2)) < key (nth l (2 * i + 1)) then
        if key (nth l (2 * i + 2)) < key (nth l i) then
          siftDown key (lswap l i (2 * i + 2)) (2 * i + 2)
        else l
      else
        if key (nth l (2 * i + 1)) < key (nth l i) then
          siftDown key (lswap l i (2 * i + 1)) (2 * i + 1)
        else l
    else l
termination_by l i => l.length - i
decreasing_by
  · simp only [lswap, List.length_set]; omega
  · simp only [lswap, List.length_set]; omega

/-- `priority_queue::push`: append at the back, then sift up. -/
def heapPush {α : Type} [Inhabited α] (key : α → Nat) (l : List α) (x : α) : List α :=
  siftUp key (l ++ [x]) l.length

/-- `priority_queue::pop`: move the last element to the root, drop the last
position, then sift the new root down. -/
def heapPopRoot {α : Type} [Inhabited α] (key : α → Nat) (l : List α) : List α :=
  match l with
  | [] => []
  | _ :: _ => siftDown key ((l.set 0 (nth l (l.length - 1))).dropLast) 0

/-- The binary min-heap invariant on keys: every non-root element's key is at
least its parent's key. -/
def IsMinHeap {α : Type} [Inhabited α] (key : α → Nat) (l : List α) : Prop :=
  ∀ j, 0 < j → j < l.length → key (nth l ((j - 1) / 2)) ≤ key (nth l j)

/-! ## Association lists

The C++ side uses `absl::flat_hash_map`; we embed maps as association lists
(first match wins, as with unique keys in a hash map). -/

/-- `map.contains(k) ? map.at(k) : nullopt`. -/
def alookup {κ β : Type} [DecidableEq κ] : List (κ × β) → κ → Option β
  | [], _ => none
  | (k, v) :: t, k0 => if k = k0 then some v else alookup t k0

/-- `map.at(k) = v` (overwrite the existing entry; no-op when absent). -/
def aset {κ β : Type} [DecidableEq κ] : List (κ × β) → κ → β → List (κ × β)
  | [], _, _ => []
  | (k, v) :: t, k0, w => if k = k0 then (k, w) :: t else (k, v) :: aset t k0 w

/-- `map.erase(k)`. -/
def aerase {κ β : Type} [DecidableEq κ] : List (κ × β) → κ → List (κ × β)
  | [], _ => []
  | (k, v) :: t, k0 => if k = k0 then t else (k, v) :: aerase t k0

/-- `map[k] = v`: overwrite when present, append a fresh entry otherwise. -/
def aupsert {κ β : Type} [DecidableEq κ] (m : List (κ × β)) (k : κ) (v : β) : List (κ × β) :=
  match alookup m k with
  | some _ => aset m k v
  | none => m ++ [(k, v)]

/-- The keys of an association list. -/
def akeys {κ β : Type} (m : List (κ × β)) : List κ := m.map (fun pr => pr.1)

/-! ## PerfEventQueue (OrbitLinuxTracing/PerfEventProcessor.h)

`PerfEvent` is an opaque timestamped record; `payload` stands for the identity
of the heap-allocated record behind the `std::unique_ptr`, so that "every event
exactly once" is expressible.  The bodies of `PushEvent` / `TopEvent` /
`PopEvent` are not part of the source excerpt (only PerfEventProcessor.h is);
they are modelled from the spec (§4.2) and from the header's own algorithm
comment: a priority queue of `(fd, FIFO)` pairs keyed on the front event's
timestamp via `QueueFrontTimestampReverseCompare`, where a pop removes the
winning pair and re-inserts it when its FIFO is still non-empty, and a source
with an empty FIFO is absent from the heap and re-enters on the next push. -/

structure PerfEvent where
  timestamp : Nat
  payload : Nat
deriving DecidableEq

instance : Inhabited PerfEvent := ⟨⟨0, 0⟩⟩

/-- The comparator `QueueFrontTimestampReverseCompare` from the source
(PerfEventProcessor.h lines 46-52): `lhs.second->front()->GetTimestamp() >
rhs.second->front()->GetTimestamp()`.  It compares front timestamps only; the
file descriptor (`first`) of either pair is not consulted. -/
def QueueFrontTimestampReverseCompare (lhs rhs : Int × List PerfEvent) : Bool :=
  (lhs.2.headD default).timestamp > (rhs.2.headD default).timestamp

/-- The heap key of a file descriptor: the timestamp of the front event of its
FIFO.  The heap stores the `(fd, shared_ptr<queue>)` pairs; since the
`shared_ptr` is the very queue stored in `fd_event_queues_`, the heap is
embedded as a list of fds keyed through the map. -/
def keyOf (m : List (Int × List PerfEvent)) (fd : Int) : Nat :=
  (((alookup m fd).getD []).headD default).timestamp

structure PerfEventQueue where
  event_queues_queue_ : List Int
  fd_event_queues_ : List (Int × List PerfEvent)
deriving DecidableEq

def PerfEventQueue.emptyQueue : PerfEventQueue := ⟨[], []⟩

/-- Modelled from the spec: `PerfEventQueue::PushEvent` (PerfEventProcessor.cpp
is absent from the excerpt).  "push(source_id, event): appends to the source's
FIFO"; a source absent from the heap (equivalently, from the map, since a
source is erased when its FIFO empties) enters the heap with its fresh
single-event FIFO. -/
def PerfEventQueue.PushEvent (q : PerfEventQueue) (origin_fd : Int) (event : PerfEvent) :
    PerfEventQueue :=
  match alookup q.fd_event_queues_ origin_fd with
  | some fifo =>
    { q with fd_event_queues_ := aset q.fd_event_queues_ origin_fd (fifo ++ [event]) }
  | none =>
    let m := q.fd_event_queues_ ++ [(origin_fd, [event])]
    { event_queues_queue_ := heapPush (keyOf m) q.event_queues_queue_ origin_fd
      fd_event_queues_ := m }

/-- Modelled from the spec: `PerfEventQueue::HasEvent`. -/
def PerfEventQueue.HasEvent (q : PerfEventQueue) : Bool :=
  !q.event_queues_queue_.isEmpty

/-- Modelled from the spec: `PerfEventQueue::TopEvent` — the front event of the
FIFO of the pair at the top of the priority queue. -/
def PerfEventQueue.TopEvent (q : PerfEventQueue) : Option PerfEvent :=
  match q.event_queues_queue_ with
  | [] => none
  | fd :: _ => ((alookup q.fd_event_queues_ fd).getD []).head?

/-- Modelled from the spec: `PerfEventQueue::PopEvent`.  The top pair is popped
from the priority queue, the front event popped from its FIFO; the pair is
re-inserted when the FIFO is still non-empty (keyed on its new front), and
the source is erased from the map otherwise.  `none` covers the states ruled
out by the class invariant (a heap fd with a missing or empty FIFO). -/
def PerfEventQueue.PopEvent (q : PerfEventQueue) : Option (PerfEvent × PerfEventQueue) :=
  match q.event_queues_queue_ with
  | [] => none
  | fd :: _ =>
    match alookup q.fd_event_queues_ fd with
    | none => none
    | some [] => none
    | some (e :: rest) =>
      let h1 := heapPopRoot (keyOf q.fd_event_queues_) q.event_queues_queue_
      if rest.isEmpty then
        some (e, { event_queues_queue_ := h1
                   fd_event_queues_ := aerase q.fd_event_queues_ fd })
      else
        let m := aset q.fd_event_queues_ fd rest
        some (e, { event_queues_queue_ := heapPush (keyOf m) h1 fd
                   fd_event_queues_ := m })

/-- All buffered events, FIFO by FIFO. -/
def PerfEventQueue.buffered (q : PerfEventQueue) : List PerfEvent :=
  (q.fd_event_queues_.map (fun pr => pr.2)).flatten

/-- Total number of buffered events. -/
def PerfEventQueue.totalSize (q : PerfEventQueue) : Nat :=
  (q.fd_event_queues_.map (fun pr => pr.2.length)).sum

/-! ## PerfEventProcessor (OrbitLinuxTracing/PerfEventProcessor.h) -/

/-- `kProcessingDelayMs` (PerfEventProcessor.h line 90). -/
def kProcessingDelayMs : Nat := 100

/-- The processing delay in nanoseconds (timestamps are monotonic ns). -/
def kProcessingDelayNs : Nat := kProcessingDelayMs * 1000000

structure PerfEventProcessor where
  event_queue_ : PerfEventQueue
  last_processed_timestamp_ns_ : Nat
  discarded_out_of_order_counter_ : Nat
deriving DecidableEq

def PerfEventProcessor.emptyProcessor : PerfEventProcessor :=
  ⟨PerfEventQueue.emptyQueue, 0, 0⟩

/-- Modelled from the spec: `PerfEventProcessor::AddEvent` forwards to the
queue. -/
def PerfEventProcessor.AddEvent (p : PerfEventProcessor) (origin_fd : Int)
    (event : PerfEvent) : PerfEventProcessor :=
  { p with event_queue_ := p.event_queue_.PushEvent origin_fd event }

/-- Push a batch of `(fd, event)` pairs in order. -/
def PerfEventProcessor.AddEvents (p : PerfEventProcessor) (ps : List (Int × PerfEvent)) :
    PerfEventProcessor :=
  ps.foldl (fun acc pr => acc.AddEvent pr.1 pr.2) p

/-- Modelled from the spec: the loop body of
`PerfEventProcessor::ProcessOldEvents` (§4.3).  While an event is buffered and
the top event's timestamp is at most `now - SAFETY_DELAY`, the top event is
popped; it is discarded (incrementing the out-of-order counter) when its
timestamp is strictly below `last_processed_timestamp_ns_`, otherwise it is
dispatched to the visitors and the watermark advanced.  Each iteration removes
one buffered event, so `fuel = totalSize` iterations always suffice; the
returned list is the sequence of events dispatched to the visitors, in
dispatch order. -/
def processOldLoop (now : Nat) : Nat → PerfEventProcessor → List PerfEvent × PerfEventProcessor
  | 0, p => ([], p)
  | fuel + 1, p =>
    match p.event_queue_.PopEvent with
    | none => ([], p)
    | some (e, q1) =>
      if e.timestamp + kProcessingDelayNs ≤ now then
        if e.timestamp < p.last_processed_timestamp_ns_ then
          processOldLoop now fuel
            { p with event_queue_ := q1
                     discarded_out_of_order_counter_ := p.discarded_out_of_order_counter_ + 1 }
        else
          let r := processOldLoop now fuel
            { p with event_queue_ := q1, last_processed_timestamp_ns_ := e.timestamp }
          (e :: r.1, r.2)
      else ([], p)

/-- Modelled from the spec: `PerfEventProcessor::ProcessOldEvents`, driven at
monotonic time `now`. -/
def PerfEventProcessor.ProcessOldEvents (p : PerfEventProcessor) (now : Nat) :
    List PerfEvent × PerfEventProcessor :=
  processOldLoop now p.event_queue_.totalSize p

/-- Push a batch of `(fd, event)` pairs into the queue, in order. -/
def PerfEventQueue.pushBatch (q : PerfEventQueue) (ps : List (Int × PerfEvent)) :
    PerfEventQueue :=
  ps.foldl (fun acc pr => acc.PushEvent pr.1 pr.2) q

/-- The class invariant of `PerfEventQueue`: map keys are distinct, every
stored FIFO is non-empty and non-decreasing in timestamp (each ring buffer
delivers its events in order), the heap holds exactly the fds present in the
map, without duplicates, and satisfies the min-heap property on front
timestamps. -/
structure PerfEventQueue.WF (q : PerfEventQueue) : Prop where
  keys_nodup : (akeys q.fd_event_queues_).Nodup
  fifos_ne : ∀ pr ∈ q.fd_event_queues_, pr.2 ≠ []
  fifos_sorted : ∀ pr ∈ q.fd_event_queues_,
    List.Pairwise (fun a b => a.timestamp ≤ b.timestamp) pr.2
  heap_nodup : q.event_queues_queue_.Nodup
  heap_mem : ∀ fd, fd ∈ q.event_queues_queue_ ↔ (alookup q.fd_event_queues_ fd).isSome
  heap_min : IsMinHeap (keyOf q.fd_event_queues_) q.event_queues_queue_

/-! ## Vulkan layer data model (OrbitVulkanLayer/CommandBufferManager.cpp,
OrbitVulkanLayer/TimerQueryPool.h)

Vulkan handles are embedded as `Nat`.  The external collaborators are passed
as explicit inputs: `connector_->IsCapturing()` as a `Bool` per call site,
`timer_query_pool_->NextReadyQuerySlot` as an `Option Nat` (its body,
TimerQueryPool.cpp, is not in the excerpt; `none` models it returning `false`
on a saturated pool), GPU timestamps and clocks as `Nat` arguments.
`dispatch_table_->CmdWriteTimestamp` writes into the GPU command stream only
and touches no tracker state, so it has no counterpart in the state model. -/

abbrev VkHandle := Nat

inductive MarkerType where
  | kDebugMarkerBegin
  | kDebugMarkerEnd
deriving DecidableEq

structure Marker where
  type : MarkerType
  text : String := ""
  slot_index : Option Nat := none
deriving DecidableEq

structure CommandBufferState where
  command_buffer_begin_slot_index : Option Nat := none
  command_buffer_end_slot_index : Option Nat := none
  markers : List Marker := []
deriving DecidableEq

structure SubmissionMetaInformation where
  thread_id : Nat := 0
  pre_submission_cpu_timestamp : Nat := 0
  post_submission_cpu_timestamp : Nat := 0
deriving DecidableEq

structure SubmittedCommandBuffer where
  command_buffer_begin_slot_index : Nat := 0
  command_buffer_end_slot_index : Nat := 0
deriving DecidableEq

structure SubmitInfo where
  command_buffers : List SubmittedCommandBuffer := []
deriving DecidableEq

structure SubmittedMarker where
  meta_information : SubmissionMetaInformation := {}
  slot_index : Nat := 0
deriving DecidableEq

structure MarkerState where
  text : String := ""
  begin_info : Option SubmittedMarker := none
  end_info : Option SubmittedMarker := none
  depth : Nat := 0
deriving DecidableEq

structure QueueSubmission where
  submit_infos : List SubmitInfo := []
  meta_information : SubmissionMetaInformation := {}
  num_begin_markers : Nat := 0
  completed_markers : List MarkerState := []
deriving DecidableEq

/-- Per-queue stack of open markers; `std::stack` is embedded as a list whose
head is the top. -/
structure QueueMarkerState where
  marker_stack : List MarkerState := []
deriving DecidableEq

structure CommandBufferManager where
  pool_to_command_buffers_ : List (VkHandle × List VkHandle) := []
  command_buffer_to_device_ : List (VkHandle × VkHandle) := []
  command_buffer_to_state_ : List (VkHandle × CommandBufferState) := []
  queue_to_submissions_ : List (VkHandle × List QueueSubmission) := []
  queue_to_markers_ : List (VkHandle × QueueMarkerState) := []
deriving DecidableEq

/-! ## TimerQueryPool (OrbitVulkanLayer/TimerQueryPool.h)

The per-device slot-state array; `kNumLogicalQuerySlots = 16384` in the header.
The array is embedded as a `List SlotState` (theorems quantify over its
length; concrete witnesses use small arrays).  The bodies of the pool methods
are not in the excerpt. -/

inductive SlotState where
  | kReadyForQueryIssue
  | kQueryPendingOnGPU
deriving DecidableEq

/-- `kNumLogicalQuerySlots` (TimerQueryPool.h line 48). -/
def kNumLogicalQuerySlots : Nat := 16384

/-- Modelled from the spec: `TimerQueryPool::RollbackPendingQuerySlots`
(TimerQueryPool.cpp is absent from the excerpt).  §4.1: "rollback(slots[]):
identical state transition to release" — each listed slot transitions to
`FREE` (`kReadyForQueryIssue`); slots not listed are untouched. -/
def RollbackPendingQuerySlots (slots_state : List SlotState)
    (slot_indices : List Nat) : List SlotState :=
  slot_indices.foldl (fun arr i => arr.set i SlotState.kReadyForQueryIssue) slots_state

/-! ## CommandBufferManager operations (CommandBufferManager.cpp)

Each function returns `Option`: `none` models a failed `CHECK(...)` (fatal
abort) or C++ undefined behaviour (`std::stack::top()` on an empty stack,
`vector::back()` on an empty vector). -/

/-- `CommandBufferManager::MarkCommandBufferBegin` (lines 49-78).
`capturing` is the value returned by `connector_->IsCapturing()`; `slot?` is
the slot produced by `timer_query_pool_->NextReadyQuerySlot` (`none` = no free
slot, which fails `CHECK(found_slot)`). -/
def CommandBufferManager.MarkCommandBufferBegin (s : CommandBufferManager) (cb : VkHandle)
    (capturing : Bool) (slot? : Option Nat) : Option CommandBufferManager :=
  if (alookup s.command_buffer_to_state_ cb).isSome then none
  else
    let s1 := { s with command_buffer_to_state_ := s.command_buffer_to_state_ ++ [(cb, {})] }
    if !capturing then some s1
    else
      match alookup s1.command_buffer_to_device_ cb with
      | none => none
      | some _device =>
        match slot? with
        | none => none
        | some slot_index =>
          match alookup s1.command_buffer_to_state_ cb with
          | none => none
          | some st =>
            let st2 := { st with command_buffer_begin_slot_index := some slot_index }
            some { s1 with command_buffer_to_state_ := aset s1.command_buffer_to_state_ cb st2 }

/-- `CommandBufferManager::MarkCommandBufferEnd` (lines 80-106). -/
def CommandBufferManager.MarkCommandBufferEnd (s : CommandBufferManager) (cb : VkHandle)
    (capturing : Bool) (slot? : Option Nat) : Option CommandBufferManager :=
  if !capturing then some s
  else
    match alookup s.command_buffer_to_state_ cb with
    | none => none
    | some st =>
      if st.command_buffer_begin_slot_index.isNone then some s
      else
        match alookup s.command_buffer_to_device_ cb with
        | none => none
        | some _device =>
          match slot? with
          | none => none
          | some slot_index =>
            let st2 := { st with command_buffer_end_slot_index := some slot_index }
            some { s with command_buffer_to_state_ := aset s.command_buffer_to_state_ cb st2 }

/-- Overwrite the `slot_index` of the last marker of a list
(`state.markers.back().slot_index = ...`). -/
def setLastMarkerSlot (ms : List Marker) (slot_index : Nat) : List Marker :=
  match ms.getLast? with
  | none => ms
  | some m => ms.dropLast ++ [{ m with slot_index := some slot_index }]

/-- `CommandBufferManager::MarkDebugMarkerBegin` (lines 108-135).  The marker
is appended structurally first; the slot is attached only when capturing. -/
def CommandBufferManager.MarkDebugMarkerBegin (s : CommandBufferManager) (cb : VkHandle)
    (text : String) (capturing : Bool) (slot? : Option Nat) : Option CommandBufferManager :=
  match alookup s.command_buffer_to_state_ cb with
  | none => none
  | some st =>
    let st1 := { st with markers := st.markers ++
        [{ type := MarkerType.kDebugMarkerBegin, text := text, slot_index := none }] }
    let s1 := { s with command_buffer_to_state_ := aset s.command_buffer_to_state_ cb st1 }
    if !capturing then some s1
    else
      match alookup s1.command_buffer_to_device_ cb with
      | none => none
      | some _device =>
        match slot? with
        | none => none
        | some slot_index =>
          let st2 := { st1 with markers := setLastMarkerSlot st1.markers slot_index }
          some { s1 with command_buffer_to_state_ := aset s1.command_buffer_to_state_ cb st2 }

/-- `CommandBufferManager::MarkDebugMarkerEnd` (lines 137-161). -/
def CommandBufferManager.MarkDebugMarkerEnd (s : CommandBufferManager) (cb : VkHandle)
    (capturing : Bool) (slot? : Option Nat) : Option CommandBufferManager :=
  match alookup s.command_buffer_to_state_ cb with
  | none => none
  | some st =>
    let st1 := { st with markers := st.markers ++
        [{ type := MarkerType.kDebugMarkerEnd, text := "", slot_index := none }] }
    let s1 := { s with command_buffer_to_state_ := aset s.command_buffer_to_state_ cb st1 }
    if !capturing then some s1
    else
      match alookup s1.command_buffer_to_device_ cb with
      | none => none
      | some _device =>
        match slot? with
        | none => none
        | some slot_index =>
          let st2 := { st1 with markers := setLastMarkerSlot st1.markers slot_index }
          some { s1 with command_buffer_to_state_ := aset s1.command_buffer_to_state_ cb st2 }

/-- Inner loop of `DoPreSubmitQueue` (lines 177-190): collect
`{begin_slot, end_slot}` for every command buffer of one `VkSubmitInfo` that
has a begin slot; `CHECK` that a state exists for each, and that a begin slot
implies an end slot. -/
def collectSubmittedCbs (stmap : List (VkHandle × CommandBufferState))
    (cbs : List VkHandle) : Option (List SubmittedCommandBuffer) :=
  cbs.foldlM
    (fun acc cb =>
      match alookup stmap cb with
      | none => none
      | some st =>
        match st.command_buffer_begin_slot_index with
        | none => some acc
        | some b =>
          match st.command_buffer_end_slot_index with
          | none => none
          | some e2 => some (acc ++ [{ command_buffer_begin_slot_index := b
                                       command_buffer_end_slot_index := e2 }]))
    []

/-- Outer loop of `DoPreSubmitQueue` (lines 173-191). -/
def collectSubmitInfos (stmap : List (VkHandle × CommandBufferState))
    (submits : List (List VkHandle)) : Option (List SubmitInfo) :=
  submits.foldlM
    (fun acc cbs => (collectSubmittedCbs stmap cbs).map (fun l => acc ++ [{ command_buffers := l }]))
    []

/-- `CommandBufferManager::DoPreSubmitQueue` (lines 163-199).  `submits` lists,
per `VkSubmitInfo`, its command buffers; `thread_id` and `pre_ts` are the
values of `GetCurrentThreadId()` and `MonotonicTimestampNs()`. -/
def CommandBufferManager.DoPreSubmitQueue (s : CommandBufferManager) (queue : VkHandle)
    (submits : List (List VkHandle)) (capturing : Bool) (thread_id pre_ts : Nat) :
    Option CommandBufferManager :=
  if !capturing then some s
  else
    match collectSubmitInfos s.command_buffer_to_state_ submits with
    | none => none
    | some infos =>
      let sub : QueueSubmission :=
        { submit_infos := infos
          meta_information := { thread_id := thread_id
                                pre_submission_cpu_timestamp := pre_ts
                                post_submission_cpu_timestamp := 0 }
          num_begin_markers := 0
          completed_markers := [] }
      let cur := (alookup s.queue_to_submissions_ queue).getD []
      some { s with queue_to_submissions_ := aupsert s.queue_to_submissions_ queue (cur ++ [sub]) }

/-- One marker step of `DoPostSubmitQueue` (lines 224-253).  A BEGIN pushes a
`MarkerState` whose depth is the stack size before the push, attaching begin
info and bumping `num_begin_markers` only when there is a pending submission
and the marker has a slot.  An END pops the top — `std::stack::top()` on an
empty stack is undefined behaviour (`none`) — and appends the completed marker
to the submission only when there is a pending submission and the END marker
has a slot. -/
def processMarker (stack : List MarkerState) (qsub? : Option QueueSubmission) (m : Marker) :
    Option (List MarkerState × Option QueueSubmission) :=
  match m.type with
  | MarkerType.kDebugMarkerBegin =>
    match qsub?, m.slot_index with
    | some qs, some si =>
      some ({ text := m.text
              begin_info := some { meta_information := qs.meta_information, slot_index := si }
              end_info := none
              depth := stack.length } :: stack,
            some { qs with num_begin_markers := qs.num_begin_markers + 1 })
    | _, _ =>
      some ({ text := m.text, begin_info := none, end_info := none,
              depth := stack.length } :: stack, qsub?)
  | MarkerType.kDebugMarkerEnd =>
    match stack with
    | [] => none
    | top :: rest =>
      match qsub?, m.slot_index with
      | some qs, some si =>
        let ms := { top with
          end_info := some { meta_information := qs.meta_information, slot_index := si } }
        some (rest, some { qs with completed_markers := qs.completed_markers ++ [ms] })
      | _, _ => some (rest, qsub?)

/-- Per-command-buffer step of `DoPostSubmitQueue` (lines 222-254):
`CHECK(command_buffer_to_state_.contains(command_buffer))`, walk its markers,
then erase its state unconditionally. -/
def processCommandBuffer
    (ctx : List MarkerState × Option QueueSubmission × List (VkHandle × CommandBufferState))
    (cb : VkHandle) :
    Option (List MarkerState × Option QueueSubmission × List (VkHandle × CommandBufferState)) :=
  match alookup ctx.2.2 cb with
  | none => none
  | some st =>
    match st.markers.foldlM (fun acc m => processMarker acc.1 acc.2 m) (ctx.1, ctx.2.1) with
    | none => none
    | some r => some (r.1, r.2, aerase ctx.2.2 cb)

/-- The two nested submit loops of `DoPostSubmitQueue` (lines 218-256). -/
def processSubmits
    (ctx : List MarkerState × Option QueueSubmission × List (VkHandle × CommandBufferState))
    (submits : List (List VkHandle)) :
    Option (List MarkerState × Option QueueSubmission × List (VkHandle × CommandBufferState)) :=
  submits.foldlM (fun c cbs => cbs.foldlM processCommandBuffer c) ctx

/-- `CommandBufferManager::DoPostSubmitQueue` (lines 203-258).  When the queue
has a submissions entry and capturing is on, the last pending submission gets
`post_submission_cpu_timestamp` and receives the completed markers
(`vector::back()` on an empty submission list is undefined behaviour);
otherwise `queue_submission` stays null and markers are processed structurally
only.  Every submitted command buffer's state is erased.  The function makes
no `TimerQueryPool` call, so it has no pool parameter: no slot changes state.-/
def CommandBufferManager.DoPostSubmitQueue (s : CommandBufferManager) (queue : VkHandle)
    (submits : List (List VkHandle)) (capturing : Bool) (post_ts : Nat) :
    Option CommandBufferManager :=
  let markersMap :=
    match alookup s.queue_to_markers_ queue with
    | some _ => s.queue_to_markers_
    | none => s.queue_to_markers_ ++ [(queue, { marker_stack := [] })]
  let stack0 := ((alookup markersMap queue).getD { marker_stack := [] }).marker_stack
  match alookup s.queue_to_submissions_ queue, capturing with
  | some subs, true =>
    match subs.getLast? with
    | none => none
    | some lastSub =>
      let qs0 := { lastSub with meta_information :=
        { lastSub.meta_information with post_submission_cpu_timestamp := post_ts } }
      match processSubmits (stack0, some qs0, s.command_buffer_to_state_) submits with
      | none => none
      | some r =>
        some { s with
          queue_to_markers_ := aset markersMap queue { marker_stack := r.1 }
          queue_to_submissions_ := aset s.queue_to_submissions_ queue
            (subs.dropLast ++ [r.2.1.getD qs0])
          command_buffer_to_state_ := r.2.2 }
  | _, _ =>
    match processSubmits (stack0, none, s.command_buffer_to_state_) submits with
    | none => none
    | some r =>
      some { s with
        queue_to_markers_ := aset markersMap queue { marker_stack := r.1 }
        command_buffer_to_state_ := r.2.2 }

/-- `CommandBufferManager::ResetCommandBuffer` (lines 416-434), paired with the
slot-state array of the command buffer's device.  Returns the new manager, the
new slot array, and the exact list passed to `RollbackPendingQuerySlots`
(named `marker_slots_to_rollback` in the source): the begin slot then the end
slot, when set — the slots of `state.markers` are never collected. -/
def CommandBufferManager.ResetCommandBuffer (s : CommandBufferManager) (cb : VkHandle)
    (slots_state : List SlotState) :
    Option (CommandBufferManager × List SlotState × List Nat) :=
  match alookup s.command_buffer_to_state_ cb with
  | none => some (s, slots_state, [])
  | some st =>
    match alookup s.command_buffer_to_device_ cb with
    | none => none
    | some _device =>
      let marker_slots_to_rollback :=
        (match st.command_buffer_begin_slot_index with
         | some b => [b]
         | none => []) ++
        (match st.command_buffer_end_slot_index with
         | some e2 => [e2]
         | none => [])
      some ({ s with command_buffer_to_state_ := aerase s.command_buffer_to_state_ cb },
            RollbackPendingQuerySlots slots_state marker_slots_to_rollback,
            marker_slots_to_rollback)

/-! ## CompleteSubmits readiness probe (lines 260-314)

`ready slot` is the outcome of
`GetQueryPoolResults(device, pool, slot, ...) == VK_SUCCESS`. -/

inductive ProbeOutcome where
  | erasedUnpolled
  | completedReady (slot : Nat)
  | notReady (slot : Nat)
deriving DecidableEq

/-- The reverse-iterator loop of `CompleteSubmits` (lines 281-306), transcribed
faithfully: the iterator is only advanced (`++submit_info_reverse_it`), while
the body always reads `submission.submit_infos.back()`.  `fuel` counts the
remaining iterator positions (`rend - it`); when the loop falls off the end
without polling, `erase_submission` keeps its initial value `true`. -/
def probeLoop (ready : Nat → Bool) (sub : QueueSubmission) : Nat → ProbeOutcome
  | 0 => ProbeOutcome.erasedUnpolled
  | k + 1 =>
    let submit_info := sub.submit_infos.getLast?.getD { command_buffers := [] }
    if submit_info.command_buffers.isEmpty then
      probeLoop ready sub k
    else
      let last_command_buffer := submit_info.command_buffers.getLast?.getD {}
      let check_slot_index_end := last_command_buffer.command_buffer_end_slot_index
      if ready check_slot_index_end then ProbeOutcome.completedReady check_slot_index_end
      else ProbeOutcome.notReady check_slot_index_end

/-- The readiness probe of one pending submission (callers ensure
`submit_infos` is non-empty). -/
def probeSubmission (ready : Nat → Bool) (sub : QueueSubmission) : ProbeOutcome :=
  probeLoop ready sub sub.submit_infos.length

/-- The per-queue drain of `CompleteSubmits` (lines 267-313): empty-submit-info
submissions are erased; a probed-ready submission is moved to
`completed_submissions` and erased; a not-ready submission is kept and the
loop advances to the next one.  Returns (remaining, completed). -/
def completeQueueSubmissions (ready : Nat → Bool) :
    List QueueSubmission → List QueueSubmission × List QueueSubmission
  | [] => ([], [])
  | sub :: rest =>
    if sub.submit_infos.isEmpty then completeQueueSubmissions ready rest
    else
      match probeSubmission ready sub with
      | ProbeOutcome.erasedUnpolled => completeQueueSubmissions ready rest
      | ProbeOutcome.completedReady _ =>
        let r := completeQueueSubmissions ready rest
        (r.1, sub :: r.2)
      | ProbeOutcome.notReady _ =>
        let r := completeQueueSubmissions ready rest
        (sub :: r.1, r.2)

/-- Modelled from the spec: the *intended* readiness probe (§4.5 step 1 and
§9's open question) — scan the submit infos in reverse for the first with a
non-empty command-buffer list and poll the end slot of its last command
buffer. -/
def intendedProbeSlot (sub : QueueSubmission) : Option Nat :=
  match sub.submit_infos.reverse.find? (fun si => !si.command_buffers.isEmpty) with
  | none => none
  | some si => si.command_buffers.getLast?.map (fun c => c.command_buffer_end_slot_index)

/-- A pending submission whose final submit info has an empty command-buffer
list while the first one has a command buffer (begin slot `b`, end slot `e2`):
the input on which the reverse-scan loop of `CompleteSubmits` misbehaves. -/
def c4FailingSubmission (b e2 : Nat) : QueueSubmission :=
  { submit_infos :=
      [{ command_buffers := [{ command_buffer_begin_slot_index := b
                               command_buffer_end_slot_index := e2 }] },
       { command_buffers := [] }] }

/-! ## Helper lemmas: list indexing -/

theorem nth_cons_zero {α : Type} [Inhabited α] (a : α) (l : List α) : nth (a :: l) 0 = a := rfl

theorem nth_cons_succ {α : Type} [Inhabited α] (a : α) (l : List α) (i : Nat) :
    nth (a :: l) (i + 1) = nth l i := rfl

theorem nth_set_self {α : Type} [Inhabited α] :
    ∀ (l : List α) (i : Nat) (a : α), i < l.length → nth (l.set i a) i = a
  | [], i, a, h => by simp at h
  | x :: t, 0, a, _ => rfl
  | x :: t, i + 1, a, h => by
    simpa [List.set, nth_cons_succ] using nth_set_self t i a (by simpa using h)

theorem nth_set_ne {α : Type} [Inhabited α] :
    ∀ (l : List α) (i j : Nat) (a : α), i ≠ j → nth (l.set i a) j = nth l j
  | [], _, _, _, _ => rfl
  | x :: t, 0, 0, a, h => absurd rfl h
  | x :: t, 0, j + 1, a, _ => rfl
  | x :: t, i + 1, 0, a, _ => rfl
  | x :: t, i + 1, j + 1, a, h => by
    simpa [List.set, nth_cons_succ] using nth_set_ne t i j a (fun hh => h (by omega))

theorem nth_append_left {α : Type} [Inhabited α] :
    ∀ (l l2 : List α) (i : Nat), i < l.length → nth (l ++ l2) i = nth l i
  | [], _, i, h => by simp at h
  | x :: t, l2, 0, _ => rfl
  | x :: t, l2, i + 1, h => by
    simpa [nth_cons_succ] using nth_append_left t l2 i (by simpa using h)

theorem nth_append_last {α : Type} [Inhabited α] :
    ∀ (l : List α) (x : α), nth (l ++ [x]) l.length = x
  | [], x => rfl
  | a :: t, x => by simpa [nth_cons_succ] using nth_append_last t x

theorem nth_mem {α : Type} [Inhabited α] :
    ∀ (l : List α) (i : Nat), i < l.length → nth l i ∈ l
  | [], i, h => by simp at h
  | x :: t, 0, _ => List.mem_cons_self x t
  | x :: t, i + 1, h =>
    List.mem_cons_of_mem x (nth_mem t i (by simpa using h))

theorem nth_dropLast {α : Type} [Inhabited α] :
    ∀ (l : List α) (i : Nat), i + 1 < l.length → nth l.dropLast i = nth l i
  | [], i, h => by simp at h
  | [x], i, h => by simp at h
  | x :: y :: t, 0, _ => rfl
  | x :: y :: t, i + 1, h => by
    have := nth_dropLast (y :: t) i (by simpa using h)
    simpa [List.dropLast, nth_cons_succ] using this

/-! ## Helper lemmas: association lists -/

theorem mem_of_alookup_eq_some {κ β : Type} [DecidableEq κ] :
    ∀ {m : List (κ × β)} {k : κ} {v : β}, alookup m k = some v → (k, v) ∈ m
  | [], k, v, h => by simp [alookup] at h
  | (k1, v1) :: t, k, v, h => by
    by_cases hk : k1 = k
    · subst hk
      simp [alookup] at h
      subst h
      exact List.mem_cons_self _ _
    · simp [alookup, hk] at h
      exact List.mem_cons_of_mem _ (mem_of_alookup_eq_some h)

theorem alookup_eq_none_iff {κ β : Type} [DecidableEq κ] :
    ∀ (m : List (κ × β)) (k : κ), alookup m k = none ↔ k ∉ akeys m
  | [], k => by simp [alookup, akeys]
  | (k1, v1) :: t, k => by
    by_cases hk : k1 = k
    · subst hk
      simp [alookup, akeys]
    · simp [alookup, akeys, hk, alookup_eq_none_iff t k, Ne.symm hk]

theorem alookup_of_mem_nodup {κ β : Type} [DecidableEq κ] :
    ∀ {m : List (κ × β)} {k : κ} {v : β}, (akeys m).Nodup → (k, v) ∈ m →
      alookup m k = some v
  | [], k, v, _, hm => by simp at hm
  | (k1, v1) :: t, k, v, hnd, hm => by
    have hnd2 : k1 ∉ akeys t ∧ (akeys t).Nodup := by
      simpa [akeys, List.nodup_cons] using hnd
    rcases List.mem_cons.mp hm with h | h
    · cases h
      simp [alookup]
    · have hk : k1 ≠ k := by
        intro he
        subst he
        exact hnd2.1 (List.mem_map.mpr ⟨(k1, v), h, rfl⟩)
      simp [alookup, hk]
      exact alookup_of_mem_nodup hnd2.2 h

theorem alookup_append {κ β : Type} [DecidableEq κ] :
    ∀ (m m2 : List (κ × β)) (k : κ),
      alookup (m ++ m2) k = ((alookup m k).rec (alookup m2 k) (fun v => some v))
  | [], m2, k => by simp [alookup]
  | (k1, v1) :: t, m2, k => by
    by_cases hk : k1 = k
    · simp [alookup, hk]
    · simp [alookup, hk, alookup_append t m2 k]

theorem alookup_append_of_some {κ β : Type} [DecidableEq κ] {m : List (κ × β)} {k : κ}
    {v : β} (m2 : List (κ × β)) (h : alookup m k = some v) :
    alookup (m ++ m2) k = some v := by
  rw [alookup_append, h]

theorem alookup_append_of_none {κ β : Type} [DecidableEq κ] {m : List (κ × β)} {k : κ}
    (m2 : List (κ × β)) (h : alookup m k = none) :
    alookup (m ++ m2) k = alookup m2 k := by
  rw [alookup_append, h]

theorem alookup_aset_self {κ β : Type} [DecidableEq κ] :
    ∀ (m : List (κ × β)) (k : κ) (w : β),
      alookup (aset m k w) k = (alookup m k).rec none (fun _ => some w)
  | [], k, w => by simp [alookup, aset]
  | (k1, v1) :: t, k, w => by
    by_cases hk : k1 = k
    · simp [alookup, aset, hk]
    · simp [alookup, aset, hk, alookup_aset_self t k w]

theorem alookup_aset_ne {κ β : Type} [DecidableEq κ] :
    ∀ (m : List (κ × β)) (k k0 : κ) (w : β), k ≠ k0 →
      alookup (aset m k w) k0 = alookup m k0
  | [], _, _, _, _ => rfl
  | (k1, v1) :: t, k, k0, w, h => by
    by_cases hk : k1 = k
    · subst hk
      simp [alookup, aset, h]
    · simp only [aset, if_neg hk]
      by_cases hk0 : k1 = k0
      · subst hk0
        simp [alookup]
      · simp [alookup, hk0, alookup_aset_ne t k k0 w h]

theorem akeys_aset {κ β : Type} [DecidableEq κ] :
    ∀ (m : List (κ × β)) (k : κ) (w : β), akeys (aset m k w) = akeys m
  | [], _, _ => rfl
  | (k1, v1) :: t, k, w => by
    by_cases hk : k1 = k
    · subst hk
      simp [aset, akeys]
    · simp only [aset, if_neg hk]
      show k1 :: akeys (aset t k w) = k1 :: akeys t
      rw [akeys_aset t k w]

theorem mem_aset {κ β : Type} [DecidableEq κ] :
    ∀ {m : List (κ × β)} {k : κ} {w : β} {pr : κ × β}, pr ∈ aset m k w →
      pr ∈ m ∨ pr = (k, w)
  | [], k, w, pr, h => by simp [aset] at h
  | (k1, v1) :: t, k, w, pr, h => by
    by_cases hk : k1 = k
    · subst hk
      simp [aset] at h
      rcases h with h | h
      · exact Or.inr (by simp [h])
      · exact Or.inl (List.mem_cons_of_mem _ h)
    · simp [aset, hk] at h
      rcases h with h | h
      · exact Or.inl (by simp [h])
      · rcases mem_aset h with h2 | h2
        · exact Or.inl (List.mem_cons_of_mem _ h2)
        · exact Or.inr h2

theorem aerase_sublist {κ β : Type} [DecidableEq κ] :
    ∀ (m : List (κ × β)) (k : κ), (aerase m k).Sublist m
  | [], _ => List.Sublist.refl []
  | (k1, v1) :: t, k => by
    by_cases hk : k1 = k
    · subst hk
      simpa [aerase] using List.sublist_cons_self (k1, v1) t
    · simpa [aerase, hk] using List.Sublist.cons₂ (k1, v1) (aerase_sublist t k)

theorem alookup_aerase_ne {κ β : Type} [DecidableEq κ] :
    ∀ (m : List (κ × β)) (k k0 : κ), k ≠ k0 →
      alookup (aerase m k) k0 = alookup m k0
  | [], _, _, _ => rfl
  | (k1, v1) :: t, k, k0, h => by
    by_cases hk : k1 = k
    · subst hk
      simp [alookup, aerase, h]
    · simp only [aerase, if_neg hk]
      by_cases hk0 : k1 = k0
      · subst hk0
        simp [alookup]
      · simp [alookup, hk0, alookup_aerase_ne t k k0 h]

theorem alookup_aerase_self {κ β : Type} [DecidableEq κ] :
    ∀ (m : List (κ × β)) (k : κ), (akeys m).Nodup → alookup (aerase m k) k = none
  | [], k, _ => rfl
  | (k1, v1) :: t, k, hnd => by
    have hnd2 : k1 ∉ akeys t ∧ (akeys t).Nodup := by
      simpa [akeys, List.nodup_cons] using hnd
    by_cases hk : k1 = k
    · subst hk
      simp only [aerase, if_pos rfl]
      rw [alookup_eq_none_iff]
      exact hnd2.1
    · simp only [aerase, if_neg hk, alookup]
      exact alookup_aerase_self t k hnd2.2

theorem akeys_sublist_aerase {κ β : Type} [DecidableEq κ] (m : List (κ × β)) (k : κ) :
    (akeys (aerase m k)).Sublist (akeys m) :=
  List.Sublist.map _ (aerase_sublist m k)

/-! ## Claim C2: slot-pool saturation at instrumentation entry points -/

/-- C2 counterexample: a command buffer is tracked on device 5 and capture is
on; slot reservation fails (`NextReadyQuerySlot` returns false, embedded as
`none`).  `MarkCommandBufferBegin` runs `CHECK(found_slot)` and the process
terminates (`none`), contradicting the claim that the mark is skipped silently
and the process does not terminate. -/
theorem c2_counterexample :
    CommandBufferManager.MarkCommandBufferBegin
      { command_buffer_to_device_ := [(1, 5)] } 1 true none = none := by rfl

/-- C2 (corrected): at every instrumentation entry point executed while
capturing (`MarkCommandBufferBegin`, `MarkCommandBufferEnd` on a begun buffer,
`MarkDebugMarkerBegin`, `MarkDebugMarkerEnd`), a failed slot reservation is
not skipped silently: it fails the `CHECK(found_slot)` assertion and the
process terminates. -/
theorem c2_slot_saturation_hits_fatal_check :
    (∀ (s : CommandBufferManager) (cb d : VkHandle),
        alookup s.command_buffer_to_state_ cb = none →
        alookup s.command_buffer_to_device_ cb = some d →
        s.MarkCommandBufferBegin cb true none = none) ∧
    (∀ (s : CommandBufferManager) (cb d : VkHandle) (st : CommandBufferState) (b : Nat),
        alookup s.command_buffer_to_state_ cb = some st →
        st.command_buffer_begin_slot_index = some b →
        alookup s.command_buffer_to_device_ cb = some d →
        s.MarkCommandBufferEnd cb true none = none) ∧
    (∀ (s : CommandBufferManager) (cb d : VkHandle) (st : CommandBufferState) (text : String),
        alookup s.command_buffer_to_state_ cb = some st →
        alookup s.command_buffer_to_device_ cb = some d →
        s.MarkDebugMarkerBegin cb text true none = none) ∧
    (∀ (s : CommandBufferManager) (cb d : VkHandle) (st : CommandBufferState),
        alookup s.command_buffer_to_state_ cb = some st →
        alookup s.command_buffer_to_device_ cb = some d →
        s.MarkDebugMarkerEnd cb true none = none) := by
  refine ⟨?_, ?_, ?_, ?_⟩
  · intro s cb d hst hdev
    simp [CommandBufferManager.MarkCommandBufferBegin, hst, hdev]
  · intro s cb d st b hst hb hdev
    simp [CommandBufferManager.MarkCommandBufferEnd, hst, hb, hdev]
  · intro s cb d st text hst hdev
    simp [CommandBufferManager.MarkDebugMarkerBegin, hst, hdev]
  · intro s cb d st hst hdev
    simp [CommandBufferManager.MarkDebugMarkerEnd, hst, hdev]

/-- C2 witness: the four entry points at concrete saturated-pool states. -/
theorem c2_witness :
    (CommandBufferManager.MarkCommandBufferBegin
      { command_buffer_to_device_ := [(1, 5)] } 1 true none = none) ∧
    (CommandBufferManager.MarkCommandBufferEnd
      { command_buffer_to_device_ := [(1, 5)]
        command_buffer_to_state_ := [(1, { command_buffer_begin_slot_index := some 0 })] }
      1 true none = none) ∧
    (CommandBufferManager.MarkDebugMarkerBegin
      { command_buffer_to_device_ := [(1, 5)]
        command_buffer_to_state_ := [(1, {})] } 1 "m" true none = none) ∧
    (CommandBufferManager.MarkDebugMarkerEnd
      { command_buffer_to_device_ := [(1, 5)]
        command_buffer_to_state_ := [(1, {})] } 1 true none = none) :=
  ⟨c2_slot_saturation_hits_fatal_check.1 _ 1 5 rfl rfl,
   c2_slot_saturation_hits_fatal_check.2.1 _ 1 5 _ 0 rfl rfl rfl,
   c2_slot_saturation_hits_fatal_check.2.2.1 _ 1 5 _ "m" rfl rfl,
   c2_slot_saturation_hits_fatal_check.2.2.2 _ 1 5 _ rfl rfl⟩

/-! ## Claim C5: submitting a command buffer that was never begun -/

/-- C5 counterexample: command buffer 1 has no `CommandBufferState` (it was
never `mark_begin`'d) and is submitted while capturing;
`CHECK(command_buffer_to_state_.contains(command_buffer))` in
`DoPreSubmitQueue` fails and the process terminates (`none`) instead of
skipping the buffer silently. -/
theorem c5_counterexample :
    CommandBufferManager.DoPreSubmitQueue {} 9 [[1]] true 7 100 = none := by rfl

/-- C5 (corrected): the silent skip in `DoPreSubmitQueue` applies to a command
buffer whose state exists but has no begin slot (begun while not capturing):
such a buffer is not recorded in the submission and nothing aborts.  A
command buffer with no state at all instead fails a fatal `CHECK`. -/
theorem c5_skip_applies_only_to_slotless_states
    (s : CommandBufferManager) (queue cb : VkHandle) (tid ts : Nat) :
    (alookup s.command_buffer_to_state_ cb = none →
      s.DoPreSubmitQueue queue [[cb]] true tid ts = none) ∧
    (∀ st : CommandBufferState,
      alookup s.command_buffer_to_state_ cb = some st →
      st.command_buffer_begin_slot_index = none →
      s.DoPreSubmitQueue queue [[cb]] true tid ts = some { s with
        queue_to_submissions_ := aupsert s.queue_to_submissions_ queue
          ((alookup s.queue_to_submissions_ queue).getD [] ++
            [{ submit_infos := [{ command_buffers := [] }]
               meta_information := { thread_id := tid
                                     pre_submission_cpu_timestamp := ts
                                     post_submission_cpu_timestamp := 0 }
               num_begin_markers := 0
               completed_markers := [] }]) }) := by
  constructor
  · intro hst
    simp [CommandBufferManager.DoPreSubmitQueue, collectSubmitInfos, collectSubmittedCbs,
      List.foldlM, hst]
  · intro st hst hb
    simp [CommandBufferManager.DoPreSubmitQueue, collectSubmitInfos, collectSubmittedCbs,
      List.foldlM, hst, hb]

/-- C5 witness: a state without begin slot is skipped silently and a state-less
buffer aborts. -/
theorem c5_witness :
    (CommandBufferManager.DoPreSubmitQueue
      { command_buffer_to_state_ := [(2, {})] } 9 [[1]] true 7 100 = none) ∧
    (CommandBufferManager.DoPreSubmitQueue
      { command_buffer_to_state_ := [(1, {})] } 9 [[1]] true 7 100 = some
        { command_buffer_to_state_ := [(1, {})]
          queue_to_submissions_ := [(9,
            [{ submit_infos := [{ command_buffers := [] }]
               meta_information := { thread_id := 7
                                     pre_submission_cpu_timestamp := 100
                                     post_submission_cpu_timestamp := 0 }
               num_begin_markers := 0
               completed_markers := [] }])] }) :=
  ⟨(c5_skip_applies_only_to_slotless_states _ 9 1 7 100).1 rfl,
   (c5_skip_applies_only_to_slotless_states _ 9 1 7 100).2 {} rfl rfl⟩

/-! ## Claim C3: debug-marker END on an empty per-queue stack -/

/-- C3 counterexample: command buffer 1 carries one END marker, the queue's
marker stack is empty, and the buffer is submitted.  `DoPostSubmitQueue`
executes `markers.marker_stack.top()` on an empty `std::stack` — undefined
behaviour (`none`) — instead of ignoring the unmatched END. -/
theorem c3_counterexample :
    CommandBufferManager.DoPostSubmitQueue
      { command_buffer_to_state_ :=
          [(1, { markers := [{ type := MarkerType.kDebugMarkerEnd }] })] }
      9 [[1]] true 0 = none := by rfl

/-- C3 (corrected): an unmatched debug-marker END observed while the queue's
marker stack is empty is not ignored: `DoPostSubmitQueue` calls
`std::stack::top()`/`pop()` on the empty stack without any guard, which is
undefined behaviour (embedded as `none`), in every capture/submission
configuration. -/
theorem c3_unmatched_end_is_undefined_behaviour
    (s : CommandBufferManager) (queue cb : VkHandle) (st : CommandBufferState)
    (m : Marker) (rest : List Marker) (capturing : Bool) (post_ts : Nat)
    (hst : alookup s.command_buffer_to_state_ cb = some st)
    (hm : st.markers = m :: rest)
    (hty : m.type = MarkerType.kDebugMarkerEnd)
    (hstack : ((alookup s.queue_to_markers_ queue).getD
        { marker_stack := [] }).marker_stack = []) :
    s.DoPostSubmitQueue queue [[cb]] capturing post_ts = none := by
  have hps : ∀ (q? : Option QueueSubmission),
      processSubmits ([], q?, s.command_buffer_to_state_) [[cb]] = none := by
    intro q?
    simp [processSubmits, processCommandBuffer, List.foldlM, hst, hm, processMarker, hty]
  cases hqm : alookup s.queue_to_markers_ queue with
  | none =>
    have hstack2 : alookup (s.queue_to_markers_ ++ [(queue, { marker_stack := [] })]) queue =
        some { marker_stack := [] } := by
      rw [alookup_append_of_none _ hqm]
      simp [alookup]
    cases hqs : alookup s.queue_to_submissions_ queue with
    | none =>
      cases capturing <;>
        simp [CommandBufferManager.DoPostSubmitQueue, hqm, hqs, hstack2, hps]
    | some subs =>
      cases capturing with
      | false => simp [CommandBufferManager.DoPostSubmitQueue, hqm, hqs, hstack2, hps]
      | true =>
        cases hl : subs.getLast? with
        | none => simp [CommandBufferManager.DoPostSubmitQueue, hqm, hqs, hstack2, hl]
        | some lastSub =>
          simp [CommandBufferManager.DoPostSubmitQueue, hqm, hqs, hstack2, hl, hps]
  | some qms =>
    have hq0 : qms.marker_stack = [] := by simpa [hqm] using hstack
    cases hqs : alookup s.queue_to_submissions_ queue with
    | none =>
      cases capturing <;>
        simp [CommandBufferManager.DoPostSubmitQueue, hqm, hqs, hq0, hps]
    | some subs =>
      cases capturing with
      | false => simp [CommandBufferManager.DoPostSubmitQueue, hqm, hqs, hq0, hps]
      | true =>
        cases hl : subs.getLast? with
        | none => simp [CommandBufferManager.DoPostSubmitQueue, hqm, hqs, hq0, hl]
        | some lastSub =>
          simp [CommandBufferManager.DoPostSubmitQueue, hqm, hqs, hq0, hl, hps]

/-- C3 witness: the empty-stack END at a concrete state, with a pending
submission present and capturing on. -/
theorem c3_witness :
    CommandBufferManager.DoPostSubmitQueue
      { command_buffer_to_state_ :=
          [(1, { markers := [{ type := MarkerType.kDebugMarkerEnd }] })]
        queue_to_submissions_ := [(9, [{}])]
        queue_to_markers_ := [(9, { marker_stack := [] })] }
      9 [[1]] true 42 = none :=
  c3_unmatched_end_is_undefined_behaviour _ 9 1 _ _ [] true 42 rfl rfl rfl rfl

/-! ## Claim C4: the CompleteSubmits readiness probe -/

/-- C4 (code bug, flagged by the source's own comment at lines 276-280): on a
submission whose last submit info has an empty command-buffer list while an
earlier one has command buffers, the probe loop re-reads
`submission.submit_infos.back()` on every iteration instead of dereferencing
the reverse iterator, so it never polls any slot and erases the submission as
if completed; the intended probe (reverse scan for the first non-empty list)
would poll end slot `e2`. -/
theorem c4_probe_reads_back_not_reverse_iterator (ready : Nat → Bool) (b e2 : Nat) :
    probeSubmission ready (c4FailingSubmission b e2) = ProbeOutcome.erasedUnpolled ∧
    completeQueueSubmissions ready [c4FailingSubmission b e2] = ([], []) ∧
    intendedProbeSlot (c4FailingSubmission b e2) = some e2 :=
  ⟨rfl, rfl, rfl⟩

/-! ## Claim C6: begin slot set implies end slot set at submission -/

/-- C6 counterexample: `MarkCommandBufferBegin` runs while capturing (begin
slot 0 reserved), capture is then toggled off, and `MarkCommandBufferEnd` runs
while not capturing, returning early without reserving an end slot.  The
resulting state has the begin slot set and the end slot unset, and submitting
the buffer while capturing hits the fatal
`CHECK(state.command_buffer_end_slot_index.has_value())` (`none`): the claimed
invariant fails exactly on the capture-toggling executions it includes. -/
theorem c6_counterexample :
    ((CommandBufferManager.MarkCommandBufferBegin { command_buffer_to_device_ := [(1, 5)] }
          1 true (some 0)).bind
        (fun s1 => s1.MarkCommandBufferEnd 1 false none)).map
      (fun s2 => (alookup s2.command_buffer_to_state_ 1,
                  s2.DoPreSubmitQueue 9 [[1]] true 7 100)) =
      some (some { command_buffer_begin_slot_index := some 0
                   command_buffer_end_slot_index := none
                   markers := [] }, none) := by rfl

/-- C6 (corrected): when the begin slot is set, the end slot is set after a
`MarkCommandBufferEnd` executed while capturing; but when capture was off at
`MarkCommandBufferEnd` time the end slot stays unset, and a submission of such
a buffer does not preserve the invariant — it aborts on the fatal
`CHECK(end slot)` in `DoPreSubmitQueue`. -/
theorem c6_begin_implies_end_only_under_capture
    (s : CommandBufferManager) (cb : VkHandle) (st : CommandBufferState) (b : Nat)
    (hst : alookup s.command_buffer_to_state_ cb = some st)
    (hbegin : st.command_buffer_begin_slot_index = some b) :
    (∀ (d k : Nat), alookup s.command_buffer_to_device_ cb = some d →
      ∃ s2, s.MarkCommandBufferEnd cb true (some k) = some s2 ∧
        alookup s2.command_buffer_to_state_ cb =
          some { st with command_buffer_end_slot_index := some k }) ∧
    (st.command_buffer_end_slot_index = none →
      ∀ (queue tid ts : Nat), s.DoPreSubmitQueue queue [[cb]] true tid ts = none) := by
  constructor
  · intro d k hdev
    refine ⟨{ s with command_buffer_to_state_ := aset s.command_buffer_to_state_ cb ({ st with command_buffer_end_slot_index := some k }) }, ?_, ?_⟩
    · simp [CommandBufferManager.MarkCommandBufferEnd, hst, hbegin, hdev]
    · show alookup (aset s.command_buffer_to_state_ cb _) cb = _
      rw [alookup_aset_self, hst]
  · intro hend queue tid ts
    simp [CommandBufferManager.DoPreSubmitQueue, collectSubmitInfos, collectSubmittedCbs,
      List.foldlM, hst, hbegin, hend]

/-- C6 witness: end slot recorded when capturing at `MarkCommandBufferEnd`
time. -/
theorem c6_witness :
    ∃ s2, CommandBufferManager.MarkCommandBufferEnd
        { command_buffer_to_device_ := [(1, 5)]
          command_buffer_to_state_ := [(1, { command_buffer_begin_slot_index := some 0 })] }
        1 true (some 3) = some s2 ∧
      alookup s2.command_buffer_to_state_ 1 =
        some { command_buffer_begin_slot_index := some 0
               command_buffer_end_slot_index := some 3
               markers := [] } :=
  (c6_begin_implies_end_only_under_capture
    { command_buffer_to_device_ := [(1, 5)],
      command_buffer_to_state_ := [(1, { command_buffer_begin_slot_index := some 0 })] }
    1 { command_buffer_begin_slot_index := some 0 } 0 rfl rfl).1 5 3 rfl

/-! ## Claim C7: markers recorded without a reserved slot -/

/-- C7 counterexample: command buffer 1 carries BEGIN (slot 3) and END (no
slot, capture was off at `marker_end` time); queue 9 has a pending submission
and capture is on at submission.  After `DoPostSubmitQueue` the submission has
`num_begin_markers = 1` but `completed_markers = []`: the completed marker
whose END has no slot does not appear, contradicting the claim that it is
emitted with the end info absent. -/
theorem c7_counterexample :
    (CommandBufferManager.DoPostSubmitQueue
      { command_buffer_to_state_ := [(1, { markers :=
          [{ type := MarkerType.kDebugMarkerBegin, text := "x", slot_index := some 3 },
           { type := MarkerType.kDebugMarkerEnd, text := "", slot_index := none }] })]
        queue_to_submissions_ := [(9, [{}])] } 9 [[1]] true 50).map
      (fun s2 => (alookup s2.queue_to_submissions_ 9).map
        (fun subs => subs.map (fun qs => (qs.completed_markers, qs.num_begin_markers)))) =
    some (some [([], 1)]) := by rfl

/-- C7 (corrected): a marker whose BEGIN lacks a slot but whose END has one is
appended to the submission's completed markers with `begin_info` absent (no
GPU begin timestamp will be emitted); but a marker whose END lacks a slot is
popped and dropped — it never appears in `completed_markers` (the submission
only counts its BEGIN in `num_begin_markers` when that BEGIN had a slot). -/
theorem c7_slotless_marker_emission (t : String) (se bslot pts : Nat) (qs : QueueSubmission) :
    ((CommandBufferManager.DoPostSubmitQueue
        { command_buffer_to_state_ := [(1, { markers :=
            [{ type := MarkerType.kDebugMarkerBegin, text := t, slot_index := none },
             { type := MarkerType.kDebugMarkerEnd, text := "", slot_index := some se }] })]
          queue_to_submissions_ := [(9, [qs])] } 9 [[1]] true pts).map
      (fun s2 => alookup s2.queue_to_submissions_ 9)) =
      some (some [{ qs with
        meta_information := { qs.meta_information with post_submission_cpu_timestamp := pts },
        completed_markers := qs.completed_markers ++
          [{ text := t, begin_info := none,
             end_info := some { meta_information := { qs.meta_information with post_submission_cpu_timestamp := pts }, slot_index := se },
             depth := 0 }] }]) ∧
    ((CommandBufferManager.DoPostSubmitQueue
        { command_buffer_to_state_ := [(1, { markers :=
            [{ type := MarkerType.kDebugMarkerBegin, text := t, slot_index := some bslot },
             { type := MarkerType.kDebugMarkerEnd, text := "", slot_index := none }] })]
          queue_to_submissions_ := [(9, [qs])] } 9 [[1]] true pts).map
      (fun s2 => alookup s2.queue_to_submissions_ 9)) =
      some (some [{ qs with
        meta_information := { qs.meta_information with post_submission_cpu_timestamp := pts },
        num_begin_markers := qs.num_begin_markers + 1 }]) :=
  ⟨rfl, rfl⟩

/-! ## Claim C9: ResetCommandBuffer rolls back only the begin/end slots -/

theorem listGet?_set_ne {α : Type} :
    ∀ (l : List α) (i j : Nat) (a : α), i ≠ j → (l.set i a).get? j = l.get? j
  | [], _, _, _, _ => rfl
  | x :: t, 0, 0, a, h => absurd rfl h
  | x :: t, 0, j + 1, a, _ => rfl
  | x :: t, i + 1, 0, a, _ => rfl
  | x :: t, i + 1, j + 1, a, h => by
    simpa [List.set] using listGet?_set_ne t i j a (fun hh => h (by omega))

/-- A slot index not passed to `RollbackPendingQuerySlots` keeps its state. -/
theorem rollback_preserves_unlisted :
    ∀ (idxs : List Nat) (pool : List SlotState) (i : Nat), i ∉ idxs →
      (RollbackPendingQuerySlots pool idxs).get? i = pool.get? i
  | [], pool, i, _ => rfl
  | j :: t, pool, i, h => by
    have hij : j ≠ i := fun he => h (he ▸ List.mem_cons_self j t)
    have hit : i ∉ t := fun hm => h (List.mem_cons_of_mem _ hm)
    have hstep : RollbackPendingQuerySlots pool (j :: t) =
        RollbackPendingQuerySlots (pool.set j SlotState.kReadyForQueryIssue) t := rfl
    rw [hstep, rollback_preserves_unlisted t _ i hit, listGet?_set_ne pool j i _ hij]

/-- C9 (confirmed): `ResetCommandBuffer` passes exactly the begin and end slots
of the command buffer to `RollbackPendingQuerySlots`; the slots recorded on
its debug markers are never in that list, so a marker slot (distinct from the
begin/end slots) that was pending stays pending even though the state is
erased. -/
theorem c9_reset_rolls_back_only_begin_end_slots
    (s : CommandBufferManager) (cb d : VkHandle) (st : CommandBufferState)
    (pool : List SlotState)
    (hst : alookup s.command_buffer_to_state_ cb = some st)
    (hdev : alookup s.command_buffer_to_device_ cb = some d)
    (hnd : (akeys s.command_buffer_to_state_).Nodup) :
    ∃ s2 pool2 rb, s.ResetCommandBuffer cb pool = some (s2, pool2, rb) ∧
      rb = st.command_buffer_begin_slot_index.toList ++
           st.command_buffer_end_slot_index.toList ∧
      alookup s2.command_buffer_to_state_ cb = none ∧
      (∀ m ∈ st.markers, ∀ ms, m.slot_index = some ms →
        st.command_buffer_begin_slot_index ≠ some ms →
        st.command_buffer_end_slot_index ≠ some ms →
        ms ∉ rb ∧ pool2.get? ms = pool.get? ms) := by
  have hlist : ((match st.command_buffer_begin_slot_index with
      | some b => [b] | none => []) ++ (match st.command_buffer_end_slot_index with
      | some e2 => [e2] | none => [])) =
      st.command_buffer_begin_slot_index.toList ++
        st.command_buffer_end_slot_index.toList := by
    cases st.command_buffer_begin_slot_index <;>
      cases st.command_buffer_end_slot_index <;> rfl
  refine ⟨{ s with command_buffer_to_state_ := aerase s.command_buffer_to_state_ cb },
    RollbackPendingQuerySlots pool (st.command_buffer_begin_slot_index.toList ++
      st.command_buffer_end_slot_index.toList),
    st.command_buffer_begin_slot_index.toList ++ st.command_buffer_end_slot_index.toList,
    ?_, rfl, ?_, ?_⟩
  · simp [CommandBufferManager.ResetCommandBuffer, hst, hdev, hlist]
  · exact alookup_aerase_self _ _ hnd
  · intro m hm ms hms hneb hnee
    have hnotin : ms ∉ st.command_buffer_begin_slot_index.toList ++
        st.command_buffer_end_slot_index.toList := by
      intro hmem
      rcases List.mem_append.mp hmem with h | h
      · cases hb : st.command_buffer_begin_slot_index with
        | none => rw [hb] at h; simp at h
        | some b =>
          rw [hb] at h
          simp [Option.toList] at h
          exact hneb (by rw [hb, h])
      · cases he : st.command_buffer_end_slot_index with
        | none => rw [he] at h; simp at h
        | some e2 =>
          rw [he] at h
          simp [Option.toList] at h
          exact hnee (by rw [he, h])
    exact ⟨hnotin, rollback_preserves_unlisted _ pool ms hnotin⟩

/-- C9 witness: a concrete reset with begin slot 0, end slot 1 and a marker
holding slot 2; slot 2 stays pending. -/
theorem c9_witness :
    ∃ s2 pool2 rb, CommandBufferManager.ResetCommandBuffer
        { command_buffer_to_device_ := [(1, 5)]
          command_buffer_to_state_ := [(1,
            { command_buffer_begin_slot_index := some 0
              command_buffer_end_slot_index := some 1
              markers := [{ type := MarkerType.kDebugMarkerBegin, text := "m",
                            slot_index := some 2 }] })] } 1
        [SlotState.kQueryPendingOnGPU, SlotState.kQueryPendingOnGPU,
         SlotState.kQueryPendingOnGPU] = some (s2, pool2, rb) ∧
      rb = (some 0 : Option Nat).toList ++ (some 1 : Option Nat).toList ∧
      alookup s2.command_buffer_to_state_ 1 = none ∧
      (∀ m ∈ [{ type := MarkerType.kDebugMarkerBegin, text := "m",
                slot_index := some 2 : Marker }], ∀ ms, m.slot_index = some ms →
        (some 0 : Option Nat) ≠ some ms → (some 1 : Option Nat) ≠ some ms →
        ms ∉ rb ∧ pool2.get? ms = [SlotState.kQueryPendingOnGPU,
          SlotState.kQueryPendingOnGPU, SlotState.kQueryPendingOnGPU].get? ms) :=
  c9_reset_rolls_back_only_begin_end_slots _ 1 5
    { command_buffer_begin_slot_index := some 0
      command_buffer_end_slot_index := some 1
      markers := [{ type := MarkerType.kDebugMarkerBegin, text := "m",
                    slot_index := some 2 }] }
    [SlotState.kQueryPendingOnGPU, SlotState.kQueryPendingOnGPU,
     SlotState.kQueryPendingOnGPU] rfl rfl (by decide)

/-! ## Claim C10: unconditional state erasure in DoPostSubmitQueue -/

theorem alookup_none_of_sublist {κ β : Type} [DecidableEq κ] {m2 m : List (κ × β)}
    (hsub : m2.Sublist m) {k : κ} (h : alookup m k = none) : alookup m2 k = none := by
  rw [alookup_eq_none_iff] at h ⊢
  intro hk
  exact h ((List.Sublist.map (fun pr => pr.1) hsub).subset hk)

theorem processCommandBuffer_stmap (ctx :
      List MarkerState × Option QueueSubmission × List (VkHandle × CommandBufferState))
    (cb : VkHandle) {ctx2 :
      List MarkerState × Option QueueSubmission × List (VkHandle × CommandBufferState)}
    (h : processCommandBuffer ctx cb = some ctx2) : ctx2.2.2 = aerase ctx.2.2 cb := by
  cases hlk : alookup ctx.2.2 cb with
  | none => simp [processCommandBuffer, hlk] at h
  | some st =>
    simp only [processCommandBuffer, hlk] at h
    cases hf : List.foldlM (fun acc m => processMarker acc.1 acc.2 m)
        (ctx.1, ctx.2.1) st.markers with
    | none => rw [hf] at h; simp at h
    | some r =>
      rw [hf] at h
      simp only [Option.some.injEq] at h
      rw [← h]

/-- The per-submit-info fold of `DoPostSubmitQueue` erases the state of every
listed command buffer and only ever shrinks the state map. -/
theorem foldlM_cbs_erase :
    ∀ (cbs : List VkHandle)
      (ctx ctx2 : List MarkerState × Option QueueSubmission ×
        List (VkHandle × CommandBufferState)),
      cbs.foldlM processCommandBuffer ctx = some ctx2 → (akeys ctx.2.2).Nodup →
      ctx2.2.2.Sublist ctx.2.2 ∧ (akeys ctx2.2.2).Nodup ∧
        ∀ cb ∈ cbs, alookup ctx2.2.2 cb = none
  | [], ctx, ctx2, h, hnd => by
    simp [List.foldlM] at h
    rw [← h]
    exact ⟨List.Sublist.refl _, hnd, by simp⟩
  | cb0 :: t, ctx, ctx2, h, hnd => by
    rw [List.foldlM_cons] at h
    cases hc : processCommandBuffer ctx cb0 with
    | none => rw [hc] at h; simp at h
    | some c1 =>
      rw [hc] at h
      have h2 : List.foldlM processCommandBuffer c1 t = some ctx2 := h
      have hmap : c1.2.2 = aerase ctx.2.2 cb0 := processCommandBuffer_stmap _ _ hc
      have hsub1 : c1.2.2.Sublist ctx.2.2 := by rw [hmap]; exact aerase_sublist _ _
      have hnd1 : (akeys c1.2.2).Nodup :=
        List.Nodup.sublist (List.Sublist.map _ hsub1) hnd
      obtain ⟨hsub, hnd2, herased⟩ := foldlM_cbs_erase t c1 ctx2 h2 hnd1
      refine ⟨hsub.trans hsub1, hnd2, ?_⟩
      intro cb hcb
      rcases List.mem_cons.mp hcb with rfl | hcb2
      · have h0 : alookup c1.2.2 cb = none := by
          rw [hmap]; exact alookup_aerase_self _ _ hnd
        exact alookup_none_of_sublist hsub h0
      · exact herased cb hcb2

/-- The nested submit loops of `DoPostSubmitQueue` erase the state of every
submitted command buffer. -/
theorem processSubmits_erase :
    ∀ (submits : List (List VkHandle))
      (ctx ctx2 : List MarkerState × Option QueueSubmission ×
        List (VkHandle × CommandBufferState)),
      processSubmits ctx submits = some ctx2 → (akeys ctx.2.2).Nodup →
      ctx2.2.2.Sublist ctx.2.2 ∧ (akeys ctx2.2.2).Nodup ∧
        ∀ cbs ∈ submits, ∀ cb ∈ cbs, alookup ctx2.2.2 cb = none
  | [], ctx, ctx2, h, hnd => by
    simp [processSubmits, List.foldlM] at h
    rw [← h]
    exact ⟨List.Sublist.refl _, hnd, by simp⟩
  | cbs0 :: t, ctx, ctx2, h, hnd => by
    rw [processSubmits, List.foldlM_cons] at h
    cases hc : cbs0.foldlM processCommandBuffer ctx with
    | none => rw [hc] at h; simp at h
    | some c1 =>
      rw [hc] at h
      have h2 : processSubmits c1 t = some ctx2 := h
      obtain ⟨hsub1, hnd1, her1⟩ := foldlM_cbs_erase cbs0 ctx c1 hc hnd
      obtain ⟨hsub2, hnd2, her2⟩ := processSubmits_erase t c1 ctx2 h2 hnd1
      refine ⟨hsub2.trans hsub1, hnd2, ?_⟩
      intro cbs hcbs cb hcb
      rcases List.mem_cons.mp hcbs with rfl | h2
      · exact alookup_none_of_sublist hsub2 (her1 cb hcb)
      · exact her2 cbs h2 cb hcb

/-- C10 (confirmed): when capture is off, or the queue has no pending
submission entry, a successful `DoPostSubmitQueue` still erases the
`CommandBufferState` of every submitted command buffer, leaves the submission
map untouched, and — since the function performs no `TimerQueryPool`
operation at all — returns none of the slots reserved in those states to the
pool. -/
theorem c10_post_submit_erases_states_unconditionally
    (s : CommandBufferManager) (queue : VkHandle) (submits : List (List VkHandle))
    (capturing : Bool) (post_ts : Nat) (s2 : CommandBufferManager)
    (hnd : (akeys s.command_buffer_to_state_).Nodup)
    (hcase : capturing = false ∨ alookup s.queue_to_submissions_ queue = none)
    (hrun : s.DoPostSubmitQueue queue submits capturing post_ts = some s2) :
    (∀ cbs ∈ submits, ∀ cb ∈ cbs, alookup s2.command_buffer_to_state_ cb = none) ∧
    s2.queue_to_submissions_ = s.queue_to_submissions_ := by
  have main : ∀ (stk : List MarkerState) (M : List (VkHandle × QueueMarkerState)),
      (match processSubmits (stk, none, s.command_buffer_to_state_) submits with
        | none => none
        | some r => some { s with
            queue_to_markers_ := aset M queue { marker_stack := r.1 }
            command_buffer_to_state_ := r.2.2 }) = some s2 →
      (∀ cbs ∈ submits, ∀ cb ∈ cbs, alookup s2.command_buffer_to_state_ cb = none) ∧
      s2.queue_to_submissions_ = s.queue_to_submissions_ := by
    intro stk M hmatch
    cases hps : processSubmits (stk, none, s.command_buffer_to_state_) submits with
    | none => rw [hps] at hmatch; simp at hmatch
    | some r =>
      rw [hps] at hmatch
      simp only [Option.some.injEq] at hmatch
      obtain ⟨-, -, her⟩ := processSubmits_erase submits _ _ hps hnd
      rw [← hmatch]
      exact ⟨fun cbs hcbs cb hcb => her cbs hcbs cb hcb, rfl⟩
  have hbranch : ∀ (h2 : alookup s.queue_to_submissions_ queue = none ∨ capturing = false),
      (∀ cbs ∈ submits, ∀ cb ∈ cbs, alookup s2.command_buffer_to_state_ cb = none) ∧
      s2.queue_to_submissions_ = s.queue_to_submissions_ := by
    intro h2
    cases hqm : alookup s.queue_to_markers_ queue with
    | none =>
      have hstk : alookup (s.queue_to_markers_ ++ [(queue, { marker_stack := [] })]) queue =
          some { marker_stack := [] } := by
        rw [alookup_append_of_none _ hqm]
        simp [alookup]
      rcases h2 with h2 | h2
      · cases capturing with
        | false =>
          refine main [] (s.queue_to_markers_ ++ [(queue, { marker_stack := [] })]) ?_
          rw [← hrun]
          simp [CommandBufferManager.DoPostSubmitQueue, hqm, h2, hstk]
        | true =>
          refine main [] (s.queue_to_markers_ ++ [(queue, { marker_stack := [] })]) ?_
          rw [← hrun]
          simp [CommandBufferManager.DoPostSubmitQueue, hqm, h2, hstk]
      · subst h2
        cases hqs : alookup s.queue_to_submissions_ queue with
        | none =>
          refine main [] (s.queue_to_markers_ ++ [(queue, { marker_stack := [] })]) ?_
          rw [← hrun]
          simp [CommandBufferManager.DoPostSubmitQueue, hqm, hqs, hstk]
        | some subs =>
          refine main [] (s.queue_to_markers_ ++ [(queue, { marker_stack := [] })]) ?_
          rw [← hrun]
          simp [CommandBufferManager.DoPostSubmitQueue, hqm, hqs, hstk]
    | some qms =>
      rcases h2 with h2 | h2
      · cases capturing with
        | false =>
          refine main qms.marker_stack s.queue_to_markers_ ?_
          rw [← hrun]
          simp [CommandBufferManager.DoPostSubmitQueue, hqm, h2]
        | true =>
          refine main qms.marker_stack s.queue_to_markers_ ?_
          rw [← hrun]
          simp [CommandBufferManager.DoPostSubmitQueue, hqm, h2]
      · subst h2
        cases hqs : alookup s.queue_to_submissions_ queue with
        | none =>
          refine main qms.marker_stack s.queue_to_markers_ ?_
          rw [← hrun]
          simp [CommandBufferManager.DoPostSubmitQueue, hqm, hqs]
        | some subs =>
          refine main qms.marker_stack s.queue_to_markers_ ?_
          rw [← hrun]
          simp [CommandBufferManager.DoPostSubmitQueue, hqm, hqs]
  rcases hcase with h | h
  · exact hbranch (Or.inr h)
  · exact hbranch (Or.inl h)

/-- C10 witness: a concrete no-capture submission: the state of command buffer
1 is erased and the (empty) submission map is untouched. -/
theorem c10_witness :
    (∀ cbs ∈ [[1]], ∀ cb ∈ cbs,
      alookup ({ command_buffer_to_state_ := []
                 queue_to_markers_ := [(9, { marker_stack := [] })] } :
        CommandBufferManager).command_buffer_to_state_ cb = none) ∧
    ({ command_buffer_to_state_ := []
       queue_to_markers_ := [(9, { marker_stack := [] })] } :
      CommandBufferManager).queue_to_submissions_ =
    ({ command_buffer_to_state_ := [(1, {})] } :
      CommandBufferManager).queue_to_submissions_ :=
  c10_post_submit_erases_states_unconditionally
    { command_buffer_to_state_ := [(1, {})] } 9 [[1]] false 0
    { command_buffer_to_state_ := []
      queue_to_markers_ := [(9, { marker_stack := [] })] }
    (by decide) (Or.inl rfl) (by rfl)

/-! ## Heap lemmas: permutation -/

theorem lswap_length {α : Type} [Inhabited α] (l : List α) (i j : Nat) :
    (lswap l i j).length = l.length := by
  simp [lswap]

theorem cons_nth_set_perm {α : Type} [Inhabited α] :
    ∀ (l : List α) (i : Nat) (a : α), i < l.length →
      List.Perm (nth l i :: l.set i a) (a :: l)
  | [], i, a, h => by simp at h
  | x :: t, 0, a, _ => List.Perm.swap a x t
  | x :: t, i + 1, a, h => by
    have ih := cons_nth_set_perm t i a (by simpa using h)
    show List.Perm (nth t i :: x :: t.set i a) (a :: x :: t)
    exact (List.Perm.swap x (nth t i) (t.set i a)).trans
      ((List.Perm.cons x ih).trans (List.Perm.swap a x t))

theorem lswap_perm {α : Type} [Inhabited α] (l : List α) (i j : Nat)
    (hi : i < l.length) (hj : j < l.length) (hij : i ≠ j) :
    List.Perm (lswap l i j) l := by
  have h1 := cons_nth_set_perm l i (nth l j) hi
  have hlen : j < (l.set i (nth l j)).length := by simpa using hj
  have h2 := cons_nth_set_perm (l.set i (nth l j)) j (nth l i) hlen
  rw [nth_set_ne l i j _ hij] at h2
  exact (List.perm_cons _).mp (h2.trans h1)

theorem siftUp_perm {α : Type} [Inhabited α] (key : α → Nat) :
    ∀ (i : Nat) (l : List α), i < l.length → List.Perm (siftUp key l i) l
  | 0, l, _ => by
    rw [siftUp]
  | i + 1, l, hl => by
    rw [siftUp]
    by_cases hc : key (nth l (i + 1)) < key (nth l (i / 2))
    · rw [if_pos hc]
      have hlen : (lswap l (i / 2) (i + 1)).length = l.length := lswap_length l _ _
      have hrec := siftUp_perm key (i / 2) (lswap l (i / 2) (i + 1)) (by omega)
      exact hrec.trans (lswap_perm l (i / 2) (i + 1) (by omega) hl (by omega))
    · rw [if_neg hc]
termination_by i l => i
decreasing_by omega

theorem siftDown_perm {α : Type} [Inhabited α] (key : α → Nat) :
    ∀ (l : List α) (i : Nat), List.Perm (siftDown key l i) l
  | l, i => by
    rw [siftDown]
    by_cases h1 : 2 * i + 1 < l.length
    · rw [dif_pos h1]
      by_cases h2 : 2 * i + 2 < l.length ∧ key (nth l (2 * i + 2)) < key (nth l (2 * i + 1))
      · rw [dif_pos h2]
        by_cases h3 : key (nth l (2 * i + 2)) < key (nth l i)
        · rw [if_pos h3]
          have hlen : (lswap l i (2 * i + 2)).length = l.length := lswap_length l _ _
          have hrec := siftDown_perm key (lswap l i (2 * i + 2)) (2 * i + 2)
          exact hrec.trans (lswap_perm l i (2 * i + 2) (by omega) (by omega) (by omega))
        · rw [if_neg h3]
      · rw [dif_neg h2]
        by_cases h3 : key (nth l (2 * i + 1)) < key (nth l i)
        · rw [if_pos h3]
          have hlen : (lswap l i (2 * i + 1)).length = l.length := lswap_length l _ _
          have hrec := siftDown_perm key (lswap l i (2 * i + 1)) (2 * i + 1)
          exact hrec.trans (lswap_perm l i (2 * i + 1) (by omega) h1 (by omega))
        · rw [if_neg h3]
    · rw [dif_neg h1]
termination_by l i => l.length - i
decreasing_by
  · rw [lswap_length]; omega
  · rw [lswap_length]; omega

theorem heapPush_perm {α : Type} [Inhabited α] (key : α → Nat) (l : List α) (x : α) :
    List.Perm (heapPush key l x) (x :: l) := by
  have h := siftUp_perm key l.length (l ++ [x]) (by simp)
  exact h.trans (List.perm_append_singleton x l)

theorem nth_eq_get {α : Type} [Inhabited α] :
    ∀ (l : List α) (i : Nat) (h : i < l.length), nth l i = l.get ⟨i, h⟩
  | [], i, h => by simp at h
  | x :: t, 0, _ => rfl
  | x :: t, i + 1, h => nth_eq_get t i (by simpa using h)

theorem heapPopRoot_perm {α : Type} [Inhabited α] (key : α → Nat) :
    ∀ (l : List α), List.Perm (heapPopRoot key l) l.tail
  | [] => List.Perm.refl []
  | [x] => by
    rw [heapPopRoot]
    have : (([x].set 0 (nth [x] 0)).dropLast : List α) = [] := rfl
    rw [show ((List.length [x]) - 1) = 0 from rfl, this]
    rw [show siftDown key ([] : List α) 0 = [] from by rw [siftDown]; simp]
    exact List.Perm.refl []
  | x :: y :: t => by
    rw [heapPopRoot]
    have hperm := siftDown_perm key (((x :: y :: t).set 0
      (nth (x :: y :: t) ((x :: y :: t).length - 1))).dropLast) 0
    refine hperm.trans ?_
    have hlast : nth (x :: y :: t) ((x :: y :: t).length - 1) =
        (y :: t).getLast (by simp) := by
      have h1 : (x :: y :: t).length - 1 = (y :: t).length - 1 + 1 := by simp
      rw [h1]
      rw [show nth (x :: y :: t) ((y :: t).length - 1 + 1) =
        nth (y :: t) ((y :: t).length - 1) from rfl]
      rw [nth_eq_get (y :: t) ((y :: t).length - 1) (by simp)]
      rw [List.getLast_eq_get]
    rw [hlast]
    show List.Perm ((y :: t).getLast (by simp) :: (y :: t).dropLast) (y :: t)
    have h3 : (y :: t).dropLast ++ [(y :: t).getLast (by simp)] = (y :: t) :=
      List.dropLast_append_getLast (by simp)
    have h2 := (List.perm_append_singleton ((y :: t).getLast (by simp))
      ((y :: t).dropLast)).symm
    refine h2.trans ?_
    rw [h3]

/-! ## Heap lemmas: the min-heap invariant -/

theorem isMinHeap_root_le {α : Type} [Inhabited α] {key : α → Nat} {l : List α}
    (h : IsMinHeap key l) :
    ∀ j, j < l.length → key (nth l 0) ≤ key (nth l j)
  | 0, _ => Nat.le_refl _
  | j + 1, hj => by
    have hpar := isMinHeap_root_le h ((j + 1 - 1) / 2) (by omega)
    exact Nat.le_trans hpar (h (j + 1) (by omega) hj)
termination_by j => j
decreasing_by omega

theorem isMinHeap_root_le_mem {α : Type} [Inhabited α] {key : α → Nat} {l : List α}
    (h : IsMinHeap key l) (x : α) (hx : x ∈ l) : key (nth l 0) ≤ key x := by
  obtain ⟨⟨i, hi⟩, rfl⟩ := List.mem_iff_get.mp hx
  rw [← nth_eq_get l i hi]
  exact isMinHeap_root_le h i hi

theorem isMinHeap_congr {α : Type} [Inhabited α] {key1 key2 : α → Nat} {l : List α}
    (hk : ∀ x ∈ l, key1 x = key2 x) (h : IsMinHeap key1 l) : IsMinHeap key2 l := by
  intro j hj hjl
  rw [← hk _ (nth_mem l _ (by omega)), ← hk _ (nth_mem l j hjl)]
  exact h j hj hjl

theorem nth_lswap_fst {α : Type} [Inhabited α] (l : List α) (i j : Nat)
    (hi : i < l.length) (hij : i ≠ j) : nth (lswap l i j) i = nth l j := by
  rw [lswap, nth_set_ne _ j i _ (Ne.symm hij), nth_set_self _ i _ hi]

theorem nth_lswap_snd {α : Type} [Inhabited α] (l : List α) (i j : Nat)
    (hj : j < l.length) : nth (lswap l i j) j = nth l i := by
  rw [lswap, nth_set_self _ j _ (by simpa using hj)]

theorem nth_lswap_other {α : Type} [Inhabited α] (l : List α) (i j r : Nat)
    (hri : r ≠ i) (hrj : r ≠ j) : nth (lswap l i j) r = nth l r := by
  rw [lswap, nth_set_ne _ j r _ (Ne.symm hrj), nth_set_ne _ i r _ (Ne.symm hri)]

/-- `std::push_heap`: if the heap property holds everywhere except possibly on
the edge into index `i`, and the grandparent-grandchild slack holds across
`i`, then sifting up from `i` restores the full min-heap invariant. -/
theorem siftUp_isMinHeap {α : Type} [Inhabited α] (key : α → Nat) :
    ∀ (i : Nat) (l : List α), i < l.length →
      (∀ j, 0 < j → j < l.length → j ≠ i →
        key (nth l ((j - 1) / 2)) ≤ key (nth l j)) →
      (∀ j, j < l.length → (j - 1) / 2 = i → 0 < i →
        key (nth l ((i - 1) / 2)) ≤ key (nth l j)) →
      IsMinHeap key (siftUp key l i)
  | 0, l, _, h1, _ => by
    rw [siftUp]
    intro j hj hjl
    exact h1 j hj hjl (by omega)
  | i + 1, l, hl, h1, h2 => by
    rw [siftUp]
    by_cases hc : key (nth l (i + 1)) < key (nth l (i / 2))
    · rw [if_pos hc]
      have hlen : (lswap l (i / 2) (i + 1)).length = l.length := lswap_length l _ _
      apply siftUp_isMinHeap key (i / 2) (lswap l (i / 2) (i + 1)) (by omega)
      · intro j hj hjl hjp
        rw [hlen] at hjl
        by_cases hjq : j = i + 1
        · subst hjq
          rw [show (i + 1 - 1) / 2 = i / 2 from rfl,
            nth_lswap_fst l (i / 2) (i + 1) (by omega) (by omega),
            nth_lswap_snd l (i / 2) (i + 1) hl]
          exact Nat.le_of_lt hc
        · by_cases hpj : (j - 1) / 2 = i + 1
          · rw [hpj, nth_lswap_snd l (i / 2) (i + 1) hl,
              nth_lswap_other l (i / 2) (i + 1) j (by omega) (by omega)]
            exact h2 j hjl hpj (by omega)
          · by_cases hpjp : (j - 1) / 2 = i / 2
            · rw [hpjp, nth_lswap_fst l (i / 2) (i + 1) (by omega) (by omega),
                nth_lswap_other l (i / 2) (i + 1) j hjp hjq]
              refine Nat.le_trans (Nat.le_of_lt hc) ?_
              have := h1 j hj hjl hjq
              rw [hpjp] at this
              exact this
            · rw [nth_lswap_other l (i / 2) (i + 1) ((j - 1) / 2) hpjp hpj,
                nth_lswap_other l (i / 2) (i + 1) j hjp hjq]
              exact h1 j hj hjl hjq
      · intro j hjl hpj hp
        rw [hlen] at hjl
        rw [nth_lswap_other l (i / 2) (i + 1) ((i / 2 - 1) / 2) (by omega) (by omega)]
        by_cases hjq : j = i + 1
        · subst hjq
          rw [nth_lswap_snd l (i / 2) (i + 1) hl]
          exact h1 (i / 2) hp (by omega) (by omega)
        · rw [nth_lswap_other l (i / 2) (i + 1) j (by omega) hjq]
          refine Nat.le_trans (h1 (i / 2) hp (by omega) (by omega)) ?_
          have := h1 j (by omega) hjl hjq
          rw [hpj] at this
          exact this
    · rw [if_neg hc]
      intro j hj hjl
      by_cases hjq : j = i + 1
      · subst hjq
        rw [show (i + 1 - 1) / 2 = i / 2 from rfl]
        exact Nat.le_of_not_lt hc
      · exact h1 j hj hjl hjq
termination_by i l => i
decreasing_by omega

/-- After one swap of `std::pop_heap`-style sifting (swap index `i` with its
smaller child `c`), the two sift-down preconditions hold at `c`. -/
theorem siftDown_swap_conditions {α : Type} [Inhabited α] (key : α → Nat) (l : List α)
    (i c : Nat) (hcases : c = 2 * i + 1 ∨ c = 2 * i + 2) (hcn : c < l.length)
    (hmin : ∀ j, 0 < j → j < l.length → (j - 1) / 2 = i → key (nth l c) ≤ key (nth l j))
    (hswap : key (nth l c) < key (nth l i))
    (h1 : ∀ j, 0 < j → j < l.length → (j - 1) / 2 ≠ i →
      key (nth l ((j - 1) / 2)) ≤ key (nth l j))
    (h2 : 0 < i → ∀ j, j < l.length → (j - 1) / 2 = i →
      key (nth l ((i - 1) / 2)) ≤ key (nth l j)) :
    (∀ j, 0 < j → j < (lswap l i c).length → (j - 1) / 2 ≠ c →
      key (nth (lswap l i c) ((j - 1) / 2)) ≤ key (nth (lswap l i c) j)) ∧
    (0 < c → ∀ j, j < (lswap l i c).length → (j - 1) / 2 = c →
      key (nth (lswap l i c) ((c - 1) / 2)) ≤ key (nth (lswap l i c) j)) := by
  have hin : i < l.length := by omega
  have hic : i ≠ c := by omega
  have hpc : (c - 1) / 2 = i := by omega
  constructor
  · intro j hj hjl hpjc
    rw [lswap_length] at hjl
    by_cases hjc : j = c
    · subst hjc
      rw [hpc, nth_lswap_fst l i j hin hic, nth_lswap_snd l i j hjl]
      exact Nat.le_of_lt hswap
    · by_cases hpji : (j - 1) / 2 = i
      · rw [hpji, nth_lswap_fst l i c hin hic,
          nth_lswap_other l i c j (by omega) hjc]
        exact hmin j hj hjl hpji
      · by_cases hji : j = i
        · subst hji
          rw [nth_lswap_other l j c ((j - 1) / 2) (by omega) (by omega),
            nth_lswap_fst l j c hin hic]
          exact h2 hj c hcn hpc
        · rw [nth_lswap_other l i c ((j - 1) / 2) hpji hpjc,
            nth_lswap_other l i c j hji hjc]
          exact h1 j hj hjl hpji
  · intro hc0 j hjl hpjc
    rw [lswap_length] at hjl
    rw [hpc, nth_lswap_fst l i c hin hic,
      nth_lswap_other l i c j (by omega) (by omega)]
    have := h1 j (by omega) hjl (by omega)
    rw [hpjc] at this
    exact this

/-- `std::pop_heap`: if the heap property holds on every edge not leaving
index `i`, and the grandparent-grandchild slack holds across `i`, then sifting
`i` down restores the full min-heap invariant. -/
theorem siftDown_isMinHeap {α : Type} [Inhabited α] (key : α → Nat) :
    ∀ (l : List α) (i : Nat),
      (∀ j, 0 < j → j < l.length → (j - 1) / 2 ≠ i →
        key (nth l ((j - 1) / 2)) ≤ key (nth l j)) →
      (0 < i → ∀ j, j < l.length → (j - 1) / 2 = i →
        key (nth l ((i - 1) / 2)) ≤ key (nth l j)) →
      IsMinHeap key (siftDown key l i)
  | l, i, h1, h2 => by
    rw [siftDown]
    by_cases hc1 : 2 * i + 1 < l.length
    · rw [dif_pos hc1]
      by_cases hc2 : 2 * i + 2 < l.length ∧
          key (nth l (2 * i + 2)) < key (nth l (2 * i + 1))
      · rw [dif_pos hc2]
        have hmin : ∀ j, 0 < j → j < l.length → (j - 1) / 2 = i →
            key (nth l (2 * i + 2)) ≤ key (nth l j) := by
          intro j hj0 hjl hpj
          have hj12 : j = 2 * i + 1 ∨ j = 2 * i + 2 := by omega
          rcases hj12 with rfl | rfl
          · exact Nat.le_of_lt hc2.2
          · exact Nat.le_refl _
        by_cases hc3 : key (nth l (2 * i + 2)) < key (nth l i)
        · rw [if_pos hc3]
          obtain ⟨H1, H2⟩ := siftDown_swap_conditions key l i (2 * i + 2)
            (Or.inr rfl) hc2.1 hmin hc3 h1 h2
          exact siftDown_isMinHeap key (lswap l i (2 * i + 2)) (2 * i + 2) H1 H2
        · rw [if_neg hc3]
          intro j hj hjl
          by_cases hpj : (j - 1) / 2 = i
          · rw [hpj]
            exact Nat.le_trans (Nat.le_of_not_lt hc3) (hmin j hj hjl hpj)
          · exact h1 j hj hjl hpj
      · rw [dif_neg hc2]
        have hmin : ∀ j, 0 < j → j < l.length → (j - 1) / 2 = i →
            key (nth l (2 * i + 1)) ≤ key (nth l j) := by
          intro j hj0 hjl hpj
          have hj12 : j = 2 * i + 1 ∨ j = 2 * i + 2 := by omega
          rcases hj12 with rfl | rfl
          · exact Nat.le_refl _
          · rcases not_and_or.mp hc2 with h | h
            · exact absurd hjl h
            · exact Nat.le_of_not_lt h
        by_cases hc3 : key (nth l (2 * i + 1)) < key (nth l i)
        · rw [if_pos hc3]
          obtain ⟨H1, H2⟩ := siftDown_swap_conditions key l i (2 * i + 1)
            (Or.inl rfl) hc1 hmin hc3 h1 h2
          exact siftDown_isMinHeap key (lswap l i (2 * i + 1)) (2 * i + 1) H1 H2
        · rw [if_neg hc3]
          intro j hj hjl
          by_cases hpj : (j - 1) / 2 = i
          · rw [hpj]
            exact Nat.le_trans (Nat.le_of_not_lt hc3) (hmin j hj hjl hpj)
          · exact h1 j hj hjl hpj
    · rw [dif_neg hc1]
      intro j hj hjl
      by_cases hpj : (j - 1) / 2 = i
      · exact absurd hpj (by omega)
      · exact h1 j hj hjl hpj
termination_by l i => l.length - i
decreasing_by
  · rw [lswap_length]; omega
  · rw [lswap_length]; omega

theorem heapPush_isMinHeap {α : Type} [Inhabited α] (key : α → Nat) (l : List α) (x : α)
    (h : IsMinHeap key l) : IsMinHeap key (heapPush key l x) := by
  rw [heapPush]
  apply siftUp_isMinHeap key l.length (l ++ [x]) (by simp)
  · intro j hj hjl hjn
    have hjlen : j < l.length := by simp at hjl; omega
    rw [nth_append_left l [x] j hjlen, nth_append_left l [x] _ (by omega)]
    exact h j hj hjlen
  · intro j hjl hpj hn
    have hjl2 : j < l.length + 1 := by simpa using hjl
    exact absurd hpj (by omega)

theorem heapPopRoot_isMinHeap {α : Type} [Inhabited α] (key : α → Nat) (l : List α)
    (h : IsMinHeap key l) : IsMinHeap key (heapPopRoot key l) := by
  match l with
  | [] =>
    intro j hj hjl
    simp [heapPopRoot] at hjl
  | x :: t =>
    rw [heapPopRoot]
    generalize nth (x :: t) ((x :: t).length - 1) = z
    apply siftDown_isMinHeap
    · intro j hj hjl hpj0
      have hlen : (((x :: t).set 0 z).dropLast).length = (x :: t).length - 1 := by simp
      rw [hlen] at hjl
      have hjl2 : j < t.length := by simpa using hjl
      rw [nth_dropLast ((x :: t).set 0 z) j (by simp; omega),
        nth_dropLast ((x :: t).set 0 z) ((j - 1) / 2) (by simp; omega),
        nth_set_ne _ 0 j _ (by omega), nth_set_ne _ 0 ((j - 1) / 2) _ (by omega)]
      exact h j hj (by simp; omega)
    · intro h0
      exact absurd h0 (Nat.lt_irrefl 0)

/-! ## PerfEventQueue lemmas -/

theorem flatten_aerase {κ β : Type} [DecidableEq κ] :
    ∀ (m : List (κ × List β)) (k : κ) (v : List β), alookup m k = some v →
      List.Perm ((m.map (fun pr => pr.2)).flatten)
        (v ++ ((aerase m k).map (fun pr => pr.2)).flatten)
  | [], k, v, h => by simp [alookup] at h
  | (k1, v1) :: t, k, v, h => by
    by_cases hk : k1 = k
    · subst hk
      rw [show aerase ((k1, v1) :: t) k1 = t from by simp [aerase]]
      have hv : v1 = v := by simpa [alookup] using h
      subst hv
      exact List.Perm.refl _
    · rw [show aerase ((k1, v1) :: t) k = (k1, v1) :: aerase t k from by simp [aerase, hk]]
      have h2 : alookup t k = some v := by simpa [alookup, hk] using h
      have ih := flatten_aerase t k v h2
      show List.Perm (v1 ++ (t.map (fun pr => pr.2)).flatten)
        (v ++ (v1 ++ ((aerase t k).map (fun pr => pr.2)).flatten))
      refine (List.Perm.append_left v1 ih).trans ?_
      rw [← List.append_assoc, ← List.append_assoc]
      exact List.Perm.append_right _ List.perm_append_comm

theorem flatten_aset {κ β : Type} [DecidableEq κ] :
    ∀ (m : List (κ × List β)) (k : κ) (v w : List β), alookup m k = some v →
      List.Perm (((aset m k w).map (fun pr => pr.2)).flatten)
        (w ++ ((aerase m k).map (fun pr => pr.2)).flatten)
  | [], k, v, w, h => by simp [alookup] at h
  | (k1, v1) :: t, k, v, w, h => by
    by_cases hk : k1 = k
    · subst hk
      rw [show aset ((k1, v1) :: t) k1 w = (k1, w) :: t from by simp [aset],
        show aerase ((k1, v1) :: t) k1 = t from by simp [aerase]]
      exact List.Perm.refl _
    · rw [show aset ((k1, v1) :: t) k w = (k1, v1) :: aset t k w from by simp [aset, hk],
        show aerase ((k1, v1) :: t) k = (k1, v1) :: aerase t k from by simp [aerase, hk]]
      have h2 : alookup t k = some v := by simpa [alookup, hk] using h
      have ih := flatten_aset t k v w h2
      show List.Perm (v1 ++ ((aset t k w).map (fun pr => pr.2)).flatten)
        (w ++ (v1 ++ ((aerase t k).map (fun pr => pr.2)).flatten))
      refine (List.Perm.append_left v1 ih).trans ?_
      rw [← List.append_assoc, ← List.append_assoc]
      exact List.Perm.append_right _ List.perm_append_comm

theorem headD_append_of_ne_nil {β : Type} (fifo : List β) (e d : β) (h : fifo ≠ []) :
    (fifo ++ [e]).headD d = fifo.headD d := by
  cases fifo with
  | nil => exact absurd rfl h
  | cons a t => rfl

theorem PushEvent_lookup_self (q : PerfEventQueue) (fd : Int) (e : PerfEvent) :
    alookup (q.PushEvent fd e).fd_event_queues_ fd =
      some ((alookup q.fd_event_queues_ fd).getD [] ++ [e]) := by
  cases h : alookup q.fd_event_queues_ fd with
  | some fifo =>
    simp only [PerfEventQueue.PushEvent, h]
    rw [alookup_aset_self, h]
    rfl
  | none =>
    simp only [PerfEventQueue.PushEvent, h]
    rw [alookup_append_of_none _ h]
    simp [alookup]

theorem PushEvent_lookup_other (q : PerfEventQueue) (fd : Int) (e : PerfEvent)
    (fd2 : Int) (h2 : fd2 ≠ fd) :
    alookup (q.PushEvent fd e).fd_event_queues_ fd2 = alookup q.fd_event_queues_ fd2 := by
  cases h : alookup q.fd_event_queues_ fd with
  | some fifo =>
    simp only [PerfEventQueue.PushEvent, h]
    exact alookup_aset_ne _ fd fd2 _ (Ne.symm h2)
  | none =>
    simp only [PerfEventQueue.PushEvent, h]
    cases h3 : alookup q.fd_event_queues_ fd2 with
    | some v => exact alookup_append_of_some _ h3
    | none =>
      rw [alookup_append_of_none _ h3]
      simp [alookup, Ne.symm h2]

theorem PushEvent_buffered (q : PerfEventQueue) (fd : Int) (e : PerfEvent) :
    List.Perm (q.PushEvent fd e).buffered (q.buffered ++ [e]) := by
  cases h : alookup q.fd_event_queues_ fd with
  | none =>
    simp only [PerfEventQueue.PushEvent, h, PerfEventQueue.buffered]
    simp
  | some fifo =>
    simp only [PerfEventQueue.PushEvent, h, PerfEventQueue.buffered]
    have h1 := flatten_aset q.fd_event_queues_ fd fifo (fifo ++ [e]) h
    have h2 := flatten_aerase q.fd_event_queues_ fd fifo h
    refine h1.trans ?_
    have h3 : List.Perm ((fifo ++ [e]) ++
        ((aerase q.fd_event_queues_ fd).map (fun pr => pr.2)).flatten)
        ((fifo ++ ((aerase q.fd_event_queues_ fd).map (fun pr => pr.2)).flatten) ++ [e]) := by
      rw [List.append_assoc, List.append_assoc]
      exact List.Perm.append_left fifo List.perm_append_comm
    refine h3.trans ?_
    exact List.Perm.append_right [e] h2.symm

theorem emptyQueue_WF : PerfEventQueue.emptyQueue.WF := by
  constructor
  · simp [PerfEventQueue.emptyQueue, akeys]
  · intro pr hpr
    simp [PerfEventQueue.emptyQueue] at hpr
  · intro pr hpr
    simp [PerfEventQueue.emptyQueue] at hpr
  · simp [PerfEventQueue.emptyQueue]
  · intro fd
    simp [PerfEventQueue.emptyQueue, alookup]
  · intro j hj hjl
    simp [PerfEventQueue.emptyQueue] at hjl

/-- Pushing an event whose timestamp dominates its source's FIFO preserves the
queue invariant. -/
theorem PushEvent_WF (q : PerfEventQueue) (fd : Int) (e : PerfEvent) (hwf : q.WF)
    (hmono : ∀ x ∈ (alookup q.fd_event_queues_ fd).getD [], x.timestamp ≤ e.timestamp) :
    (q.PushEvent fd e).WF := by
  cases h : alookup q.fd_event_queues_ fd with
  | some fifo =>
    have hfifomem : (fd, fifo) ∈ q.fd_event_queues_ := mem_of_alookup_eq_some h
    have hfifone : fifo ≠ [] := hwf.fifos_ne _ hfifomem
    rw [h] at hmono
    constructor
    · simp only [PerfEventQueue.PushEvent, h]
      rw [akeys_aset]
      exact hwf.keys_nodup
    · intro pr hpr
      simp only [PerfEventQueue.PushEvent, h] at hpr
      rcases mem_aset hpr with h2 | h2
      · exact hwf.fifos_ne _ h2
      · subst h2
        simp
    · intro pr hpr
      simp only [PerfEventQueue.PushEvent, h] at hpr
      rcases mem_aset hpr with h2 | h2
      · exact hwf.fifos_sorted _ h2
      · subst h2
        show List.Pairwise _ (fifo ++ [e])
        rw [List.pairwise_append]
        refine ⟨hwf.fifos_sorted _ hfifomem, List.pairwise_singleton _ _, ?_⟩
        intro a ha b hb
        rw [List.mem_singleton.mp hb]
        exact hmono a ha
    · simp only [PerfEventQueue.PushEvent, h]
      exact hwf.heap_nodup
    · intro fd2
      simp only [PerfEventQueue.PushEvent, h]
      by_cases h2 : fd2 = fd
      · subst h2
        have hl : alookup (aset q.fd_event_queues_ fd2 (fifo ++ [e])) fd2 =
            some (fifo ++ [e]) := by
          rw [alookup_aset_self, h]
        rw [hl]
        have := hwf.heap_mem fd2
        rw [h] at this
        simpa using this
      · rw [alookup_aset_ne _ fd fd2 _ (fun he => h2 he.symm)]
        exact hwf.heap_mem fd2
    · simp only [PerfEventQueue.PushEvent, h]
      refine isMinHeap_congr ?_ hwf.heap_min
      intro a ha
      by_cases h2 : a = fd
      · subst h2
        unfold keyOf
        rw [h, alookup_aset_self, h]
        simp only [Option.getD_some]
        rw [headD_append_of_ne_nil fifo e default hfifone]
      · unfold keyOf
        rw [alookup_aset_ne _ fd a _ (fun he => h2 he.symm)]
  | none =>
    have hfdnotin : fd ∉ q.event_queues_queue_ := by
      rw [hwf.heap_mem fd, h]
      simp
    have hkeysnew : akeys (q.fd_event_queues_ ++ [(fd, [e])]) =
        akeys q.fd_event_queues_ ++ [fd] := by
      simp [akeys]
    have hlookup_other : ∀ fd2, fd2 ≠ fd →
        alookup (q.fd_event_queues_ ++ [(fd, [e])]) fd2 = alookup q.fd_event_queues_ fd2 := by
      intro fd2 h2
      cases h3 : alookup q.fd_event_queues_ fd2 with
      | some v => exact alookup_append_of_some _ h3
      | none =>
        rw [alookup_append_of_none _ h3]
        simp [alookup, Ne.symm h2]
    have hkeycongr : ∀ a ∈ q.event_queues_queue_,
        keyOf q.fd_event_queues_ a = keyOf (q.fd_event_queues_ ++ [(fd, [e])]) a := by
      intro a ha
      have hane : a ≠ fd := fun he => hfdnotin (he ▸ ha)
      unfold keyOf
      rw [hlookup_other a hane]
    have hheapmin : IsMinHeap (keyOf (q.fd_event_queues_ ++ [(fd, [e])]))
        q.event_queues_queue_ := isMinHeap_congr hkeycongr hwf.heap_min
    have hpushperm := heapPush_perm (keyOf (q.fd_event_queues_ ++ [(fd, [e])]))
      q.event_queues_queue_ fd
    constructor
    · simp only [PerfEventQueue.PushEvent, h]
      rw [hkeysnew]
      refine ((List.perm_append_singleton fd _).nodup_iff).mpr ?_
      rw [List.nodup_cons]
      refine ⟨?_, hwf.keys_nodup⟩
      rw [← alookup_eq_none_iff]
      exact h
    · intro pr hpr
      simp only [PerfEventQueue.PushEvent, h] at hpr
      rcases List.mem_append.mp hpr with h2 | h2
      · exact hwf.fifos_ne _ h2
      · rw [List.mem_singleton.mp h2]
        simp
    · intro pr hpr
      simp only [PerfEventQueue.PushEvent, h] at hpr
      rcases List.mem_append.mp hpr with h2 | h2
      · exact hwf.fifos_sorted _ h2
      · rw [List.mem_singleton.mp h2]
        exact List.pairwise_singleton _ _
    · simp only [PerfEventQueue.PushEvent, h]
      refine hpushperm.nodup_iff.mpr ?_
      rw [List.nodup_cons]
      exact ⟨hfdnotin, hwf.heap_nodup⟩
    · intro fd2
      simp only [PerfEventQueue.PushEvent, h]
      rw [hpushperm.mem_iff, List.mem_cons]
      by_cases h2 : fd2 = fd
      · subst h2
        rw [alookup_append_of_none _ h]
        simp [alookup]
      · rw [hlookup_other fd2 h2]
        have := hwf.heap_mem fd2
        simp [h2, this]
    · simp only [PerfEventQueue.PushEvent, h]
      exact heapPush_isMinHeap _ _ fd hheapmin

/-- `PopEvent` on a well-formed, non-empty queue returns a buffered event of
minimum timestamp, preserves the invariant, and removes exactly that event. -/
theorem PopEvent_spec (q : PerfEventQueue) (hwf : q.WF)
    (hne : q.event_queues_queue_ ≠ []) :
    ∃ e q2, q.PopEvent = some (e, q2) ∧ q2.WF ∧
      List.Perm (e :: q2.buffered) q.buffered ∧
      ∀ x ∈ q.buffered, e.timestamp ≤ x.timestamp := by
  obtain ⟨fd, hrest, hheap⟩ : ∃ fd hrest, q.event_queues_queue_ = fd :: hrest := by
    cases hh : q.event_queues_queue_ with
    | nil => exact absurd hh hne
    | cons a t => exact ⟨a, t, rfl⟩
  have hfdmem : fd ∈ q.event_queues_queue_ := by
    rw [hheap]; exact List.mem_cons_self _ _
  have hlk : (alookup q.fd_event_queues_ fd).isSome := (hwf.heap_mem fd).mp hfdmem
  obtain ⟨fifo, hfifo⟩ : ∃ fifo, alookup q.fd_event_queues_ fd = some fifo := by
    cases hh : alookup q.fd_event_queues_ fd with
    | none => rw [hh] at hlk; simp at hlk
    | some v => exact ⟨v, rfl⟩
  have hfifomem : (fd, fifo) ∈ q.fd_event_queues_ := mem_of_alookup_eq_some hfifo
  have hfifone : fifo ≠ [] := hwf.fifos_ne _ hfifomem
  obtain ⟨e, rest, hfe⟩ : ∃ e rest, fifo = e :: rest := by
    cases fifo with
    | nil => exact absurd rfl hfifone
    | cons a t => exact ⟨a, t, rfl⟩
  subst hfe
  have hmin : ∀ x ∈ q.buffered, e.timestamp ≤ x.timestamp := by
    intro x hx
    obtain ⟨sub, hsubmem, hxsub⟩ := List.mem_flatten.mp hx
    obtain ⟨pr, hprmem, hprsub⟩ := List.mem_map.mp hsubmem
    rw [← hprsub] at hxsub
    have hprlk : alookup q.fd_event_queues_ pr.1 = some pr.2 :=
      alookup_of_mem_nodup hwf.keys_nodup hprmem
    have hprheap : pr.1 ∈ q.event_queues_queue_ := by
      rw [hwf.heap_mem pr.1, hprlk]
      rfl
    have hroot := isMinHeap_root_le_mem hwf.heap_min pr.1 hprheap
    have hrootval : keyOf q.fd_event_queues_ (nth q.event_queues_queue_ 0) =
        e.timestamp := by
      rw [hheap]
      show keyOf q.fd_event_queues_ fd = e.timestamp
      unfold keyOf
      rw [hfifo]
      rfl
    have hprval : keyOf q.fd_event_queues_ pr.1 ≤ x.timestamp := by
      unfold keyOf
      rw [hprlk]
      have hprne := hwf.fifos_ne _ hprmem
      have hsort := hwf.fifos_sorted _ hprmem
      cases hpr2 : pr.2 with
      | nil => exact absurd hpr2 hprne
      | cons h0 t0 =>
        rw [hpr2] at hxsub hsort
        show h0.timestamp ≤ x.timestamp
        rcases List.mem_cons.mp hxsub with rfl | hx2
        · exact Nat.le_refl _
        · exact (List.pairwise_cons.mp hsort).1 x hx2
    calc e.timestamp = keyOf q.fd_event_queues_ (nth q.event_queues_queue_ 0) :=
        hrootval.symm
      _ ≤ keyOf q.fd_event_queues_ pr.1 := hroot
      _ ≤ x.timestamp := hprval
  have hheapmin0 : IsMinHeap (keyOf q.fd_event_queues_) (fd :: hrest) := by
    have := hwf.heap_min
    rw [hheap] at this
    exact this
  have hh1perm : List.Perm
      (heapPopRoot (keyOf q.fd_event_queues_) (fd :: hrest)) hrest := by
    simpa using heapPopRoot_perm (keyOf q.fd_event_queues_) (fd :: hrest)
  have hh1min := heapPopRoot_isMinHeap (keyOf q.fd_event_queues_) (fd :: hrest) hheapmin0
  have hnodup0 : (fd :: hrest).Nodup := by
    have := hwf.heap_nodup
    rw [hheap] at this
    exact this
  have hfdnotinrest : fd ∉ hrest := (List.nodup_cons.mp hnodup0).1
  have hrestnodup : hrest.Nodup := (List.nodup_cons.mp hnodup0).2
  have hfdnotinh1 : fd ∉ heapPopRoot (keyOf q.fd_event_queues_) (fd :: hrest) :=
    fun hmem => hfdnotinrest (hh1perm.subset hmem)
  have hh1nodup : (heapPopRoot (keyOf q.fd_event_queues_) (fd :: hrest)).Nodup :=
    hh1perm.nodup_iff.mpr hrestnodup
  have hbufperm := flatten_aerase q.fd_event_queues_ fd (e :: rest) hfifo
  cases rest with
  | nil =>
    refine ⟨e, ⟨heapPopRoot (keyOf q.fd_event_queues_) (fd :: hrest),
      aerase q.fd_event_queues_ fd⟩, ?_, ?_, ?_, hmin⟩
    · simp [PerfEventQueue.PopEvent, hheap, hfifo]
    · constructor
      · exact List.Nodup.sublist (akeys_sublist_aerase _ _) hwf.keys_nodup
      · intro pr hpr
        exact hwf.fifos_ne _ ((aerase_sublist _ _).subset hpr)
      · intro pr hpr
        exact hwf.fifos_sorted _ ((aerase_sublist _ _).subset hpr)
      · exact hh1nodup
      · intro fd2
        show fd2 ∈ _ ↔ (alookup (aerase q.fd_event_queues_ fd) fd2).isSome
        by_cases h2 : fd2 = fd
        · subst h2
          rw [alookup_aerase_self _ _ hwf.keys_nodup]
          simp [hfdnotinh1]
        · rw [alookup_aerase_ne _ fd fd2 (Ne.symm h2)]
          rw [hh1perm.mem_iff]
          have hm := hwf.heap_mem fd2
          rw [hheap] at hm
          simp only [List.mem_cons] at hm
          rw [← hm]
          simp [h2]
      · refine isMinHeap_congr ?_ hh1min
        intro a ha
        have hane : a ≠ fd := fun he => hfdnotinh1 (he ▸ ha)
        unfold keyOf
        rw [alookup_aerase_ne _ fd a (Ne.symm hane)]
    · show List.Perm (e :: PerfEventQueue.buffered _) q.buffered
      refine List.Perm.trans ?_ hbufperm.symm
      exact List.Perm.refl _
  | cons r0 rt =>
    refine ⟨e, ⟨heapPush (keyOf (aset q.fd_event_queues_ fd (r0 :: rt)))
      (heapPopRoot (keyOf q.fd_event_queues_) (fd :: hrest)) fd,
      aset q.fd_event_queues_ fd (r0 :: rt)⟩, ?_, ?_, ?_, hmin⟩
    · simp [PerfEventQueue.PopEvent, hheap, hfifo]
    · have hlk2 : alookup (aset q.fd_event_queues_ fd (r0 :: rt)) fd =
          some (r0 :: rt) := by
        rw [alookup_aset_self, hfifo]
      have hmin2 : IsMinHeap (keyOf (aset q.fd_event_queues_ fd (r0 :: rt)))
          (heapPopRoot (keyOf q.fd_event_queues_) (fd :: hrest)) := by
        refine isMinHeap_congr ?_ hh1min
        intro a ha
        have hane : a ≠ fd := fun he => hfdnotinh1 (he ▸ ha)
        unfold keyOf
        rw [alookup_aset_ne _ fd a _ (Ne.symm hane)]
      have hpushperm := heapPush_perm (keyOf (aset q.fd_event_queues_ fd (r0 :: rt)))
        (heapPopRoot (keyOf q.fd_event_queues_) (fd :: hrest)) fd
      constructor
      · rw [akeys_aset]
        exact hwf.keys_nodup
      · intro pr hpr
        rcases mem_aset hpr with h2 | h2
        · exact hwf.fifos_ne _ h2
        · subst h2
          simp
      · intro pr hpr
        rcases mem_aset hpr with h2 | h2
        · exact hwf.fifos_sorted _ h2
        · subst h2
          have := hwf.fifos_sorted _ hfifomem
          exact (List.pairwise_cons.mp this).2
      · refine hpushperm.nodup_iff.mpr ?_
        rw [List.nodup_cons]
        exact ⟨hfdnotinh1, hh1nodup⟩
      · intro fd2
        rw [hpushperm.mem_iff, List.mem_cons]
        by_cases h2 : fd2 = fd
        · subst h2
          rw [hlk2]
          simp
        · rw [alookup_aset_ne _ fd fd2 _ (Ne.symm h2), hh1perm.mem_iff]
          have hm := hwf.heap_mem fd2
          rw [hheap] at hm
          simp only [List.mem_cons] at hm
          rw [← hm]
      · exact heapPush_isMinHeap _ _ fd hmin2
    · show List.Perm (e :: PerfEventQueue.buffered _) q.buffered
      have hsetperm := flatten_aset q.fd_event_queues_ fd (e :: r0 :: rt) (r0 :: rt) hfifo
      refine List.Perm.trans (List.Perm.cons e hsetperm) ?_
      exact hbufperm.symm

theorem totalSize_eq (q : PerfEventQueue) : q.totalSize = q.buffered.length := by
  simp only [PerfEventQueue.totalSize, PerfEventQueue.buffered, List.length_flatten,
    List.map_map]
  rfl

theorem buffered_nil_of_heap_nil (q : PerfEventQueue) (hwf : q.WF)
    (h : q.event_queues_queue_ = []) : q.buffered = [] := by
  cases hm : q.fd_event_queues_ with
  | nil => simp [PerfEventQueue.buffered, hm]
  | cons pr t =>
    exfalso
    have hlk : alookup q.fd_event_queues_ pr.1 = some pr.2 :=
      alookup_of_mem_nodup hwf.keys_nodup (by rw [hm]; exact List.mem_cons_self _ _)
    have hmem : pr.1 ∈ q.event_queues_queue_ := by
      rw [hwf.heap_mem pr.1, hlk]
      rfl
    rw [h] at hmem
    simp at hmem

/-- The dispatch loop of `ProcessOldEvents`, run with enough fuel on a
well-formed queue whose buffered events all clear the delay gate and are at or
after the watermark, dispatches exactly the buffered events (a permutation),
in non-decreasing timestamp order, discarding nothing. -/
theorem processOldLoop_spec (now : Nat) :
    ∀ (fuel : Nat) (p : PerfEventProcessor), p.event_queue_.WF →
      p.event_queue_.totalSize ≤ fuel →
      (∀ x ∈ p.event_queue_.buffered, p.last_processed_timestamp_ns_ ≤ x.timestamp) →
      (∀ x ∈ p.event_queue_.buffered, x.timestamp + kProcessingDelayNs ≤ now) →
      List.Perm (processOldLoop now fuel p).1 p.event_queue_.buffered ∧
      List.Pairwise (fun a b => a.timestamp ≤ b.timestamp) (processOldLoop now fuel p).1 ∧
      (processOldLoop now fuel p).2.discarded_out_of_order_counter_ =
        p.discarded_out_of_order_counter_
  | 0, p, hwf, hfuel, _, _ => by
    have hts := totalSize_eq p.event_queue_
    have hb : p.event_queue_.buffered = [] :=
      List.length_eq_zero.mp (by omega)
    rw [processOldLoop]
    simp [hb]
  | fuel + 1, p, hwf, hfuel, hlast, hnow => by
    by_cases hne : p.event_queue_.event_queues_queue_ = []
    · have hpop : p.event_queue_.PopEvent = none := by
        unfold PerfEventQueue.PopEvent
        rw [hne]
      have hb : p.event_queue_.buffered = [] := buffered_nil_of_heap_nil _ hwf hne
      rw [processOldLoop, hpop]
      simp [hb]
    · obtain ⟨e, q2, hpop, hwf2, hperm, hminp⟩ := PopEvent_spec _ hwf hne
      have hein : e ∈ p.event_queue_.buffered := hperm.subset (List.mem_cons_self _ _)
      have hfuel2 : q2.totalSize ≤ fuel := by
        have h1 := totalSize_eq q2
        have h2 := totalSize_eq p.event_queue_
        have h3 := hperm.length_eq
        simp only [List.length_cons] at h3
        omega
      have hlast2 : ∀ x ∈ q2.buffered, e.timestamp ≤ x.timestamp := fun x hx =>
        hminp x (hperm.subset (List.mem_cons_of_mem _ hx))
      have hnow2 : ∀ x ∈ q2.buffered, x.timestamp + kProcessingDelayNs ≤ now :=
        fun x hx => hnow x (hperm.subset (List.mem_cons_of_mem _ hx))
      obtain ⟨ih1, ih2, ih3⟩ := processOldLoop_spec now fuel
        { p with event_queue_ := q2, last_processed_timestamp_ns_ := e.timestamp }
        hwf2 hfuel2 hlast2 hnow2
      rw [processOldLoop, hpop]
      simp only []
      rw [if_pos (hnow e hein), if_neg (Nat.not_lt.mpr (hlast e hein))]
      refine ⟨?_, ?_, ?_⟩
      · exact (List.Perm.cons e ih1).trans hperm
      · rw [List.pairwise_cons]
        exact ⟨fun b hb => hlast2 b (ih1.subset hb), ih2⟩
      · exact ih3

/-- Pushing a batch of per-source-monotone events (whose timestamps also
dominate the already-buffered FIFOs of their sources) preserves the queue
invariant and appends exactly the pushed events to the buffered multiset,
leaving the watermark and discard counter unchanged. -/
theorem AddEvents_spec :
    ∀ (ps : List (Int × PerfEvent)) (p : PerfEventProcessor), p.event_queue_.WF →
      List.Pairwise (fun a b => a.1 = b.1 → a.2.timestamp ≤ b.2.timestamp) ps →
      (∀ pr ∈ ps, ∀ x ∈ (alookup p.event_queue_.fd_event_queues_ pr.1).getD [],
        x.timestamp ≤ pr.2.timestamp) →
      (p.AddEvents ps).event_queue_.WF ∧
      List.Perm (p.AddEvents ps).event_queue_.buffered
        (p.event_queue_.buffered ++ ps.map (fun pr => pr.2)) ∧
      (p.AddEvents ps).last_processed_timestamp_ns_ = p.last_processed_timestamp_ns_ ∧
      (p.AddEvents ps).discarded_out_of_order_counter_ =
        p.discarded_out_of_order_counter_
  | [], p, hwf, _, _ => ⟨hwf, by simp [PerfEventProcessor.AddEvents], rfl, rfl⟩
  | (fd, e) :: t, p, hwf, hmono, hcompat => by
    have hstep : p.AddEvents ((fd, e) :: t) = (p.AddEvent fd e).AddEvents t := rfl
    have hq1 : (p.AddEvent fd e).event_queue_ = p.event_queue_.PushEvent fd e := rfl
    have hwf1 : (p.AddEvent fd e).event_queue_.WF := by
      rw [hq1]
      exact PushEvent_WF _ fd e hwf (hcompat (fd, e) (List.mem_cons_self _ _))
    have hmono1 := (List.pairwise_cons.mp hmono).2
    have hrel := (List.pairwise_cons.mp hmono).1
    have hcompat1 : ∀ pr ∈ t, ∀ x ∈
        (alookup (p.AddEvent fd e).event_queue_.fd_event_queues_ pr.1).getD [],
        x.timestamp ≤ pr.2.timestamp := by
      intro pr hpr x hx
      rw [hq1] at hx
      by_cases h2 : pr.1 = fd
      · rw [h2, PushEvent_lookup_self] at hx
        simp only [Option.getD_some] at hx
        have hety : e.timestamp ≤ pr.2.timestamp := hrel pr hpr h2.symm
        rcases List.mem_append.mp hx with h3 | h3
        · exact Nat.le_trans (hcompat (fd, e) (List.mem_cons_self _ _) x h3) hety
        · rw [List.mem_singleton.mp h3]
          exact hety
      · rw [PushEvent_lookup_other _ fd e pr.1 h2] at hx
        exact hcompat pr (List.mem_cons_of_mem _ hpr) x hx
    obtain ⟨ih1, ih2, ih3, ih4⟩ := AddEvents_spec t (p.AddEvent fd e) hwf1 hmono1 hcompat1
    refine ⟨by rw [hstep]; exact ih1, ?_, by rw [hstep, ih3]; rfl, by rw [hstep, ih4]; rfl⟩
    rw [hstep]
    refine ih2.trans ?_
    have hb := PushEvent_buffered p.event_queue_ fd e
    refine (List.Perm.append_right _ hb).trans ?_
    rw [List.append_assoc]
    exact List.Perm.refl _

/-! ## Claim C1: the merger dispatches every pushed event once, in order -/

/-- C1 (confirmed): for every batch of pushes in which each source's events
arrive in non-decreasing timestamp order and pairwise cross-source skew is at
most the safety delay, driving `ProcessOldEvents` with
`now ≥ last_event_ts + kProcessingDelayNs` dispatches to the visitors a
sequence that is a permutation of all pushed events (every pushed event
exactly once), globally non-decreasing in timestamp, with nothing discarded by
the out-of-order guard. -/
theorem c1_merger_dispatches_all_events_in_order
    (ps : List (Int × PerfEvent)) (now : Nat)
    (hmono : List.Pairwise (fun a b => a.1 = b.1 → a.2.timestamp ≤ b.2.timestamp) ps)
    (hskew : ∀ a ∈ ps, ∀ b ∈ ps, a.2.timestamp ≤ b.2.timestamp + kProcessingDelayNs)
    (hnow : ∀ pr ∈ ps, pr.2.timestamp + kProcessingDelayNs ≤ now) :
    List.Perm ((PerfEventProcessor.emptyProcessor.AddEvents ps).ProcessOldEvents now).1
      (ps.map (fun pr => pr.2)) ∧
    List.Pairwise (fun a b => a.timestamp ≤ b.timestamp)
      ((PerfEventProcessor.emptyProcessor.AddEvents ps).ProcessOldEvents now).1 ∧
    ((PerfEventProcessor.emptyProcessor.AddEvents
      ps).ProcessOldEvents now).2.discarded_out_of_order_counter_ = 0 := by
  have hemptywf : PerfEventProcessor.emptyProcessor.event_queue_.WF := emptyQueue_WF
  have hcompat : ∀ pr ∈ ps, ∀ x ∈
      (alookup PerfEventProcessor.emptyProcessor.event_queue_.fd_event_queues_
        pr.1).getD [], x.timestamp ≤ pr.2.timestamp := by
    intro pr hpr x hx
    simp [PerfEventProcessor.emptyProcessor, PerfEventQueue.emptyQueue, alookup] at hx
  obtain ⟨hwf1, hperm1, hlast1, hdisc1⟩ := AddEvents_spec ps
    PerfEventProcessor.emptyProcessor hemptywf hmono hcompat
  have hperm1n : List.Perm
      (PerfEventProcessor.emptyProcessor.AddEvents ps).event_queue_.buffered
      (ps.map (fun pr => pr.2)) := by
    refine hperm1.trans ?_
    simp [PerfEventProcessor.emptyProcessor, PerfEventQueue.emptyQueue,
      PerfEventQueue.buffered]
  have hlast : ∀ x ∈ (PerfEventProcessor.emptyProcessor.AddEvents ps).event_queue_.buffered,
      (PerfEventProcessor.emptyProcessor.AddEvents ps).last_processed_timestamp_ns_ ≤
        x.timestamp := by
    intro x hx
    rw [hlast1]
    exact Nat.zero_le _
  have hnowb : ∀ x ∈ (PerfEventProcessor.emptyProcessor.AddEvents ps).event_queue_.buffered,
      x.timestamp + kProcessingDelayNs ≤ now := by
    intro x hx
    obtain ⟨pr, hpr, hpre⟩ := List.mem_map.mp (hperm1n.subset hx)
    rw [← hpre]
    exact hnow pr hpr
  obtain ⟨h1, h2, h3⟩ := processOldLoop_spec now
    (PerfEventProcessor.emptyProcessor.AddEvents ps).event_queue_.totalSize
    (PerfEventProcessor.emptyProcessor.AddEvents ps) hwf1 (Nat.le_refl _) hlast hnowb
  exact ⟨h1.trans hperm1n, h2,
    by rw [PerfEventProcessor.ProcessOldEvents]; rw [h3, hdisc1]; rfl⟩

/-- C1 witness: the two-source merge scenario of the spec — source 1 pushes
timestamps 10, 20, 30 and source 2 pushes 15, 25, 35; the dispatched sequence
is a permutation of all six events, sorted by timestamp, with no discards. -/
theorem c1_witness :
    List.Perm ((PerfEventProcessor.emptyProcessor.AddEvents
        [(1, ⟨10, 1⟩), (1, ⟨20, 2⟩), (1, ⟨30, 3⟩),
         (2, ⟨15, 4⟩), (2, ⟨25, 5⟩), (2, ⟨35, 6⟩)]).ProcessOldEvents 200000000).1
      ([(1, (⟨10, 1⟩ : PerfEvent)), (1, ⟨20, 2⟩), (1, ⟨30, 3⟩),
        (2, ⟨15, 4⟩), (2, ⟨25, 5⟩), (2, ⟨35, 6⟩)].map (fun pr => pr.2)) ∧
    List.Pairwise (fun a b => a.timestamp ≤ b.timestamp)
      ((PerfEventProcessor.emptyProcessor.AddEvents
        [(1, ⟨10, 1⟩), (1, ⟨20, 2⟩), (1, ⟨30, 3⟩),
         (2, ⟨15, 4⟩), (2, ⟨25, 5⟩), (2, ⟨35, 6⟩)]).ProcessOldEvents 200000000).1 ∧
    ((PerfEventProcessor.emptyProcessor.AddEvents
        [(1, ⟨10, 1⟩), (1, ⟨20, 2⟩), (1, ⟨30, 3⟩),
         (2, ⟨15, 4⟩), (2, ⟨25, 5⟩), (2, ⟨35, 6⟩)]).ProcessOldEvents
      200000000).2.discarded_out_of_order_counter_ = 0 :=
  c1_merger_dispatches_all_events_in_order
    [(1, ⟨10, 1⟩), (1, ⟨20, 2⟩), (1, ⟨30, 3⟩), (2, ⟨15, 4⟩), (2, ⟨25, 5⟩), (2, ⟨35, 6⟩)]
    200000000 (by decide) (by decide) (by decide)

/-! ## Claim C8: tie-break between equal front timestamps -/

/-- C8 counterexample: source 2 pushes an event with timestamp 5, then source
1 pushes one with timestamp 5.  `TopEvent`/`PopEvent` return source 2's event
(payload 100), not the smaller source id's event (payload 200); the source's
comparator compares only front timestamps and deems the two pairs equivalent
in both orders. -/
theorem c8_counterexample :
    ((PerfEventQueue.emptyQueue.PushEvent 2 ⟨5, 100⟩).PushEvent 1 ⟨5, 200⟩).TopEvent =
      some ⟨5, 100⟩ ∧
    (((PerfEventQueue.emptyQueue.PushEvent 2 ⟨5, 100⟩).PushEvent 1
      ⟨5, 200⟩).PopEvent.map (fun pr => pr.1)) = some ⟨5, 100⟩ ∧
    (⟨5, 100⟩ : PerfEvent) ≠ ⟨5, 200⟩ ∧
    QueueFrontTimestampReverseCompare (2, [⟨5, 100⟩]) (1, [⟨5, 200⟩]) = false ∧
    QueueFrontTimestampReverseCompare (1, [⟨5, 200⟩]) (2, [⟨5, 100⟩]) = false := by
  have hq : (PerfEventQueue.emptyQueue.PushEvent 2 ⟨5, 100⟩).PushEvent 1 ⟨5, 200⟩ =
      { event_queues_queue_ := [2, 1]
        fd_event_queues_ := [(2, [⟨5, 100⟩]), (1, [⟨5, 200⟩])] } := by
    simp [PerfEventQueue.emptyQueue, PerfEventQueue.PushEvent, alookup, heapPush,
      siftUp, keyOf, nth]
  refine ⟨?_, ?_, by decide, rfl, rfl⟩
  · rw [hq]
    rfl
  · rw [hq]
    rfl

/-- C8 (corrected): the comparator ignores source ids, so equal front
timestamps are resolved by the heap's internal order, not by source id: with
two sources whose head events have equal timestamps, the source that entered
the heap first is returned first, whatever the two ids are. -/
theorem c8_ties_resolved_by_heap_order_not_source_id
    (a b : Int) (e1 e2 : PerfEvent) (hab : a ≠ b) (hts : e1.timestamp = e2.timestamp) :
    ((PerfEventQueue.emptyQueue.PushEvent a e1).PushEvent b e2).TopEvent = some e1 := by
  have h1 : PerfEventQueue.emptyQueue.PushEvent a e1 =
      { event_queues_queue_ := [a], fd_event_queues_ := [(a, [e1])] } := by
    simp [PerfEventQueue.emptyQueue, PerfEventQueue.PushEvent, alookup, heapPush, siftUp]
  rw [h1]
  have h2 : alookup [(a, [e1])] b = none := by
    simp [alookup, hab]
  simp only [PerfEventQueue.PushEvent, h2]
  have hkeyb : keyOf [(a, [e1]), (b, [e2])] b = e2.timestamp := by
    simp [keyOf, alookup, hab]
  have hkeya : keyOf [(a, [e1]), (b, [e2])] a = e1.timestamp := by
    simp [keyOf, alookup]
  have hpush : heapPush (keyOf [(a, [e1]), (b, [e2])]) [a] b = [a, b] := by
    rw [heapPush]
    show siftUp _ [a, b] 1 = [a, b]
    rw [siftUp]
    rw [if_neg]
    rw [show nth [a, b] (0 + 1) = b from rfl, show nth [a, b] (0 / 2) = a from rfl,
      hkeyb, hkeya, hts]
    omega
  rw [show ([(a, [e1])] ++ [(b, [e2])] : List (Int × List PerfEvent)) =
    [(a, [e1]), (b, [e2])] from rfl, hpush]
  simp [PerfEventQueue.TopEvent, alookup]

/-- C8 witness (for the corrected claim): ids 2 then 1 with equal timestamp 5;
the first-inserted source (id 2) wins. -/
theorem c8_witness :
    ((PerfEventQueue.emptyQueue.PushEvent 2 ⟨5, 100⟩).PushEvent 1 ⟨5, 200⟩).TopEvent =
      some ⟨5, 100⟩ :=
  c8_ties_resolved_by_heap_order_not_source_id 2 1 ⟨5, 100⟩ ⟨5, 200⟩ (by decide) rfl

end Spec2Proof

